import Mathlib

/-!
# DetourNavigator: job scheduling of AsyncNavMeshUpdater and tile bookkeeping of
# TileCachedRecastMeshManager

Shallow embedding of
* components/detournavigator/asyncnavmeshupdater.cpp (getDistance, makePriority, post,
  getNextJob, wait, the worker loop of process),
* components/detournavigator/tilecachedrecastmeshmanager.hpp (updateObject),
* the behaviour of RecastMeshObject::update exercised by
  apps/openmw_test_suite/detournavigator/recastmeshobject.cpp.

Conventions.
* int is a 32 bit two's complement integer: arithmetic results are wrapped by wrapInt.
* std::size_t is 64 bit: the revision counter is incremented modulo 2 ^ 64.
* Values that the code only stores, compares or passes on (agent half extents, cache item
  handles, object ids, shapes, transforms, area types, settings) are type parameters; where the
  code compares or looks them up they carry decidable equality.
* A std::set is a list used as a set (the occupancy set written by updateObject, which a
  later call iterates, is kept in the order of the set); a std::map or std::unordered_map is
  a partial function from keys to values, none standing for a missing entry.
* Logging, timing and debug file output do not touch the state described here and are left out.
-/

namespace DetourNavigator

/-! ## Definitions -/

/-- TilePosition is osg::Vec2i, a pair of int grid coordinates. -/
structure TilePosition where
  x : Int
  y : Int
deriving DecidableEq, Repr

/-- Reduction of an integer to the range of a 32 bit two's complement int. -/
def wrapInt (v : Int) : Int :=
  (v + 2147483648) % 4294967296 - 2147483648

/-- The int overload of std::abs. -/
def absInt (v : Int) : Int :=
  wrapInt (if v < 0 then -v else v)

/-- getDistance of asyncnavmeshupdater.cpp:
std::abs(lhs.x() - rhs.x()) + std::abs(lhs.y() - rhs.y()) in int arithmetic. -/
def getDistance (lhs rhs : TilePosition) : Int :=
  wrapInt (absInt (wrapInt (lhs.x - rhs.x)) + absInt (wrapInt (lhs.y - rhs.y)))

/-- makePriority of asyncnavmeshupdater.cpp. -/
def makePriority (changedTile playerTile : TilePosition) : Int × Int :=
  (getDistance changedTile playerTile, getDistance changedTile ⟨0, 0⟩)

/-- Job of AsyncNavMeshUpdater. The fields are those of the aggregate initialiser in post,
in its order; the last one holds the result of makePriority. -/
structure Job (A C : Type) where
  mAgentHalfExtents : A
  mNavMeshCacheItem : C
  mChangedTile : TilePosition
  mPriority : Int × Int

/-- The operator < of std::pair<int, int>: lexicographic comparison. -/
def pairLess (p q : Int × Int) : Bool :=
  decide (p.1 < q.1) || (!decide (q.1 < p.1) && decide (p.2 < q.2))

/-- Modelled from the spec: the operator < of Job is declared in asyncnavmeshupdater.hpp, which
is not part of the sources at hand. The spec orders the queue ascending by the priority pair
(closer to the player, then closer to the origin, processed first); for the max-heap
std::priority_queue this is the comparison that calls lhs less than rhs when the priority
pair of lhs is the greater one. -/
def Job.less {A C : Type} (lhs rhs : Job A C) : Bool :=
  pairLess rhs.mPriority lhs.mPriority

/-- Modelled from the spec: mJobs is a std::priority_queue of Job (declared in the missing
header). The queue content is kept as a list in order of insertion. extractTop j js splits
the non-empty queue j :: js into the element returned by top() and the queue left by pop():
the top is an element that is not less than any other; among several such elements the one
enqueued first is taken. -/
def extractTop {A C : Type} : Job A C → List (Job A C) → Job A C × List (Job A C)
  | j, [] => (j, [])
  | j, k :: ks =>
    let r := extractTop k ks
    if Job.less j r.1 then (r.1, j :: r.2) else (j, k :: ks)

/-- The part of the state of AsyncNavMeshUpdater read and written by post, getNextJob, wait,
getPlayerTile and setPlayerTile. mPushed maps an agent size to its set of pending tiles. -/
structure AsyncNavMeshUpdater (A C : Type) where
  mPlayerTile : TilePosition
  mJobs : List (Job A C)
  mPushed : A → Option (List TilePosition)

namespace AsyncNavMeshUpdater

variable {A C : Type} [DecidableEq A]

/-- State after the constructor: the player tile is the zero vector, no job, nothing pending. -/
def create : AsyncNavMeshUpdater A C :=
  { mPlayerTile := ⟨0, 0⟩, mJobs := [], mPushed := fun _ => none }

/-- AsyncNavMeshUpdater::setPlayerTile. -/
def setPlayerTile (s : AsyncNavMeshUpdater A C) (value : TilePosition) : AsyncNavMeshUpdater A C :=
  { s with mPlayerTile := value }

/-- AsyncNavMeshUpdater::getPlayerTile. -/
def getPlayerTile (s : AsyncNavMeshUpdater A C) : TilePosition :=
  s.mPlayerTile

/-- The expression mPushed[agentHalfExtents].insert(changedTile): operator[] creates an empty
set for a missing agent, insert adds the tile unless it is present. The first component is the
member second of the result of insert (true when the tile was inserted). -/
def insertPushed (mPushed : A → Option (List TilePosition)) (agentHalfExtents : A)
    (changedTile : TilePosition) : Bool × (A → Option (List TilePosition)) :=
  let tiles := (mPushed agentHalfExtents).getD []
  if changedTile ∈ tiles then
    (false, fun a => if a = agentHalfExtents then some tiles else mPushed a)
  else
    (true, fun a => if a = agentHalfExtents then some (changedTile :: tiles) else mPushed a)

/-- Body of the loop of post for one changed tile. -/
def postTile (agentHalfExtents : A) (navMeshCacheItem : C) (playerTile : TilePosition)
    (s : AsyncNavMeshUpdater A C) (changedTile : TilePosition) : AsyncNavMeshUpdater A C :=
  let r := insertPushed s.mPushed agentHalfExtents changedTile
  if r.1 then
    { s with
      mPushed := r.2
      mJobs := s.mJobs ++
        [⟨agentHalfExtents, navMeshCacheItem, changedTile, makePriority changedTile playerTile⟩] }
  else
    { s with mPushed := r.2 }

/-- AsyncNavMeshUpdater::post. changedTiles lists the std::set in its iteration order. -/
def post (s : AsyncNavMeshUpdater A C) (agentHalfExtents : A) (navMeshCacheItem : C)
    (playerTile : TilePosition) (changedTiles : List TilePosition) : AsyncNavMeshUpdater A C :=
  let s1 := s.setPlayerTile playerTile
  if changedTiles.isEmpty then s1
  else changedTiles.foldl (postTile agentHalfExtents navMeshCacheItem playerTile) s1

/-- AsyncNavMeshUpdater::getNextJob, from the point where the mutex is held for good (a timed
wait on an empty queue releases the mutex; calls of post made meanwhile come before this
step). The outer none stands for undefined behaviour: mPushed.find returned end() and the
iterator is dereferenced. Otherwise the result is the optional job and the new state. -/
def getNextJob (s : AsyncNavMeshUpdater A C) :
    Option (Option (Job A C) × AsyncNavMeshUpdater A C) :=
  match s.mJobs with
  | [] => some (none, s)
  | j :: js =>
    let r := extractTop j js
    let job := r.1
    match s.mPushed job.mAgentHalfExtents with
    | none => none
    | some tiles =>
      let tiles1 := tiles.filter (fun t => decide (t ≠ job.mChangedTile))
      some (some job,
        { s with
          mJobs := r.2
          mPushed := fun a =>
            if a = job.mAgentHalfExtents then
              (if tiles1.isEmpty then none else some tiles1)
            else s.mPushed a })

/-- The predicate of the condition variable wait in AsyncNavMeshUpdater::wait: wait returns
when it holds. -/
def waitPredicate (s : AsyncNavMeshUpdater A C) : Bool :=
  s.mJobs.isEmpty

/-- Whether tile is in the set that the map holds for agent (false when there is no entry). -/
def pushedContains (mPushed : A → Option (List TilePosition)) (agent : A)
    (tile : TilePosition) : Bool :=
  match mPushed agent with
  | none => false
  | some tiles => decide (tile ∈ tiles)

/-- Whether tile is in the pending set mPushed[agent] (false when the agent has no entry). -/
def isPushed (s : AsyncNavMeshUpdater A C) (agent : A) (tile : TilePosition) : Bool :=
  pushedContains s.mPushed agent tile

/-- Number of queued jobs for the pair (agent, tile). -/
def queuedCount (s : AsyncNavMeshUpdater A C) (agent : A) (tile : TilePosition) : Nat :=
  s.mJobs.countP (fun j => decide (j.mAgentHalfExtents = agent ∧ j.mChangedTile = tile))

/-- Consistency of queue and pending sets: every pair (agent, tile) has one queued job when
the tile is pending for the agent and none otherwise, and no agent has an empty entry. -/
def Consistent (s : AsyncNavMeshUpdater A C) : Prop :=
  (∀ a t, s.queuedCount a t = if s.isPushed a t then 1 else 0) ∧ ∀ a, s.mPushed a ≠ some []

end AsyncNavMeshUpdater

/-- A call made on the scheduler: post by the simulation thread, getNextJob by the worker. -/
inductive Call (A C : Type) where
  | post (agentHalfExtents : A) (navMeshCacheItem : C) (playerTile : TilePosition)
      (changedTiles : List TilePosition)
  | getNextJob

/-- Effect of one call on the scheduler state; none when the call has undefined behaviour. -/
def applyCall {A C : Type} [DecidableEq A] (s : AsyncNavMeshUpdater A C) :
    Call A C → Option (AsyncNavMeshUpdater A C)
  | .post a c p ts => some (s.post a c p ts)
  | .getNextJob => (s.getNextJob).map Prod.snd

/-- Effect of a sequence of calls, made one after the other under the mutex. -/
def runCalls {A C : Type} [DecidableEq A] (s : AsyncNavMeshUpdater A C) :
    List (Call A C) → Option (AsyncNavMeshUpdater A C)
  | [] => some s
  | c :: cs => (applyCall s c).bind (fun s1 => runCalls s1 cs)

/-- States reachable from a freshly constructed scheduler by post and getNextJob calls. -/
def Reachable {A C : Type} [DecidableEq A] (s : AsyncNavMeshUpdater A C) : Prop :=
  ∃ calls : List (Call A C), runCalls AsyncNavMeshUpdater.create calls = some s

/-- The scheduler of the scenario of the spec: a post on a fresh scheduler with player tile
(5,5) and changed tiles (0,0) and (6,6), for agent 1 and cache item 7. -/
def scenarioUpdater : AsyncNavMeshUpdater Nat Nat :=
  AsyncNavMeshUpdater.create.post 1 7 ⟨5, 5⟩ [⟨0, 0⟩, ⟨6, 6⟩]

/-- The scheduler together with the worker thread of process(): job is the optional local
returned by getNextJob, held while processJob runs on it (the job in flight). -/
structure Worker (A C : Type) where
  updater : AsyncNavMeshUpdater A C
  job : Option (Job A C)

/-- Atomic steps of the system: a post by the simulation thread, the worker calling getNextJob
in its loop, the worker returning from processJob. -/
inductive Action (A C : Type) where
  | post (agentHalfExtents : A) (navMeshCacheItem : C) (playerTile : TilePosition)
      (changedTiles : List TilePosition)
  | getNextJob
  | processJobDone

/-- One step of the system; none when the step cannot be taken in this state. The worker
calls getNextJob only between jobs, and processJob (which reads the player tile and writes
the nav mesh cache item, neither queue nor pending set) ends only when a job is in flight. -/
def Worker.step {A C : Type} [DecidableEq A] (w : Worker A C) : Action A C → Option (Worker A C)
  | .post a c p ts => some { w with updater := w.updater.post a c p ts }
  | .getNextJob =>
    match w.job with
    | some _ => none
    | none => (w.updater.getNextJob).map (fun r => { updater := r.2, job := r.1 })
  | .processJobDone =>
    match w.job with
    | some _ => some { w with job := none }
    | none => none

/-- Effect of a sequence of steps. -/
def Worker.run {A C : Type} [DecidableEq A] (w : Worker A C) :
    List (Action A C) → Option (Worker A C)
  | [] => some w
  | a :: as => (w.step a).bind (fun w1 => Worker.run w1 as)

/-- The system after construction: fresh scheduler, worker between jobs. -/
def Worker.create {A C : Type} [DecidableEq A] : Worker A C :=
  { updater := AsyncNavMeshUpdater.create, job := none }

/-! ### TileCachedRecastMeshManager -/

/-- The functions called by updateObject whose code is not at hand, taken as parameters:
getBorderSize (settingsutils.hpp), getTilesPositions (gettilespositions.hpp), given by the
sequence of tile positions it passes to its callback, and the private members addTile,
updateTile and removeTile. The three members work on the locked tile map handed to them;
Tiles is the type of that map together with whatever they keep along with it. -/
structure TileHelpers (ObjectId Shape Transform AreaType Settings Border Removed Tiles : Type)
    where
  getBorderSize : Settings → Border
  getTilesPositions : Shape → Transform → Settings → List TilePosition
  addTile : ObjectId → Shape → Transform → AreaType → TilePosition → Border → Tiles →
    Bool × Tiles
  updateTile : ObjectId → Transform → AreaType → TilePosition → Tiles → Bool × Tiles
  removeTile : ObjectId → TilePosition → Tiles → Option Removed × Tiles

/-- The part of the state of TileCachedRecastMeshManager that updateObject works on. -/
structure TileCachedRecastMeshManager (ObjectId Settings Tiles : Type) where
  mSettings : Settings
  mTiles : Tiles
  mObjectsTilesPositions : ObjectId → Option (List TilePosition)
  mRevision : Nat

/-- The locals of updateObject that its loops change: the locked tile map, newTiles (the
std::set in iteration order), changed, and the tiles onChangedTile was called with so far,
in order of the calls. -/
structure UpdateObjectLocals (Tiles : Type) where
  tiles : Tiles
  newTiles : List TilePosition
  changed : Bool
  onChangedTile : List TilePosition

/-- The operator < of TilePosition (osg::Vec2i, of the graphics library), the order of
std::set<TilePosition>: lexicographic, as the data model of the spec states; the x
coordinates are compared first, then the y coordinates. -/
def TilePosition.less (a b : TilePosition) : Bool :=
  decide (a.x < b.x) || (decide (a.x = b.x) && decide (a.y < b.y))

/-- The insert of std::set<TilePosition> on the list of the elements in iteration order: the
tile is put before the first greater element unless it is present. -/
def setInsert (t : TilePosition) : List TilePosition → List TilePosition
  | [] => [t]
  | u :: us =>
    if t = u then u :: us
    else if t.less u then t :: u :: us
    else u :: setInsert t us

section UpdateObject

variable {ObjectId Shape Transform AreaType Settings Border Removed Tiles : Type}

/-- The lambda onTilePosition of updateObject. -/
def onTilePosition
    (h : TileHelpers ObjectId Shape Transform AreaType Settings Border Removed Tiles)
    (id : ObjectId) (shape : Shape) (transform : Transform) (areaType : AreaType)
    (border : Border) (currentTiles : List TilePosition) (st : UpdateObjectLocals Tiles)
    (tilePosition : TilePosition) : UpdateObjectLocals Tiles :=
  if tilePosition ∈ currentTiles then
    let r := h.updateTile id transform areaType tilePosition st.tiles
    if r.1 then
      { tiles := r.2, newTiles := setInsert tilePosition st.newTiles, changed := true,
        onChangedTile := st.onChangedTile ++ [tilePosition] }
    else
      { st with tiles := r.2, newTiles := setInsert tilePosition st.newTiles }
  else
    let r := h.addTile id shape transform areaType tilePosition border st.tiles
    if r.1 then
      { tiles := r.2, newTiles := setInsert tilePosition st.newTiles, changed := true,
        onChangedTile := st.onChangedTile ++ [tilePosition] }
    else
      { st with tiles := r.2 }

/-- Body of the loop of updateObject over currentTiles: removeTile is called only for a tile
that is not in newTiles. -/
def removeOldTile
    (h : TileHelpers ObjectId Shape Transform AreaType Settings Border Removed Tiles)
    (id : ObjectId) (st : UpdateObjectLocals Tiles) (tile : TilePosition) :
    UpdateObjectLocals Tiles :=
  if tile ∈ st.newTiles then st
  else
    let r := h.removeTile id tile st.tiles
    if r.1.isSome then
      { st with tiles := r.2, changed := true, onChangedTile := st.onChangedTile ++ [tile] }
    else
      { st with tiles := r.2 }

/-- The block of updateObject that holds the lock on mTiles: the call of getTilesPositions
with the lambda onTilePosition, then the loop over currentTiles. -/
def updateObjectTiles
    (h : TileHelpers ObjectId Shape Transform AreaType Settings Border Removed Tiles)
    (settings : Settings) (tiles : Tiles) (id : ObjectId) (shape : Shape)
    (transform : Transform) (areaType : AreaType) (border : Border)
    (currentTiles : List TilePosition) : UpdateObjectLocals Tiles :=
  let st0 : UpdateObjectLocals Tiles :=
    { tiles := tiles, newTiles := [], changed := false, onChangedTile := [] }
  let st1 := (h.getTilesPositions shape transform settings).foldl
    (onTilePosition h id shape transform areaType border currentTiles) st0
  currentTiles.foldl (removeOldTile h id) st1

/-- TileCachedRecastMeshManager::updateObject. The result is the returned bool, the tiles
onChangedTile was called with (in order), and the new state. -/
def updateObject [DecidableEq ObjectId]
    (h : TileHelpers ObjectId Shape Transform AreaType Settings Border Removed Tiles)
    (m : TileCachedRecastMeshManager ObjectId Settings Tiles)
    (id : ObjectId) (shape : Shape) (transform : Transform) (areaType : AreaType) :
    Bool × List TilePosition × TileCachedRecastMeshManager ObjectId Settings Tiles :=
  match m.mObjectsTilesPositions id with
  | none => (false, [], m)
  | some currentTiles =>
    let border := h.getBorderSize m.mSettings
    let st := updateObjectTiles h m.mSettings m.mTiles id shape transform areaType border
      currentTiles
    (st.changed, st.onChangedTile,
      { m with
        mTiles := st.tiles
        mObjectsTilesPositions := fun k =>
          if k = id then some st.newTiles else m.mObjectsTilesPositions k
        mRevision :=
          if st.changed then (m.mRevision + 1) % 18446744073709551616 else m.mRevision })

/-- The locals of updateObject after getTilesPositions has passed the tiles of the list to
the lambda onTilePosition, starting from the locked tile map of the manager. -/
def localsAfterPositions [DecidableEq ObjectId]
    (h : TileHelpers ObjectId Shape Transform AreaType Settings Border Removed Tiles)
    (m : TileCachedRecastMeshManager ObjectId Settings Tiles)
    (id : ObjectId) (shape : Shape) (transform : Transform) (areaType : AreaType)
    (currentTiles : List TilePosition) (positions : List TilePosition) :
    UpdateObjectLocals Tiles :=
  positions.foldl
    (onTilePosition h id shape transform areaType (h.getBorderSize m.mSettings) currentTiles)
    { tiles := m.mTiles, newTiles := [], changed := false, onChangedTile := [] }

/-- Some per-tile update, add or remove that updateObject performs for the tile reports an
effective change. Either getTilesPositions passes the tile to the lambda and, on the tile map
left by the tiles passed before it, updateTile (when the tile is in currentTiles) or addTile
(when it is not) returns true; or the loop over currentTiles comes to the tile, the tile is
not in newTiles and, on the tile map left by the first loop and by the tiles of currentTiles
before it, removeTile returns a removed object. -/
def TileReportsChange [DecidableEq ObjectId]
    (h : TileHelpers ObjectId Shape Transform AreaType Settings Border Removed Tiles)
    (m : TileCachedRecastMeshManager ObjectId Settings Tiles)
    (id : ObjectId) (shape : Shape) (transform : Transform) (areaType : AreaType)
    (currentTiles : List TilePosition) (t : TilePosition) : Prop :=
  (∃ pre post, h.getTilesPositions shape transform m.mSettings = pre ++ t :: post ∧
    (if t ∈ currentTiles then
      (h.updateTile id transform areaType t
        (localsAfterPositions h m id shape transform areaType currentTiles pre).tiles).1
    else
      (h.addTile id shape transform areaType t (h.getBorderSize m.mSettings)
        (localsAfterPositions h m id shape transform areaType currentTiles pre).tiles).1)
      = true) ∨
  (∃ pre post, currentTiles = pre ++ t :: post ∧
    t ∉ (pre.foldl (removeOldTile h id)
      (localsAfterPositions h m id shape transform areaType currentTiles
        (h.getTilesPositions shape transform m.mSettings))).newTiles ∧
    (h.removeTile id t
      (pre.foldl (removeOldTile h id)
        (localsAfterPositions h m id shape transform areaType currentTiles
          (h.getTilesPositions shape transform m.mSettings))).tiles).1.isSome = true)

/-- Modelled from the spec: the per-tile geometry cache of section 4.2 (CachedRecastMeshManager,
whose code is not at hand), by the interface the spec gives it, the tile being chosen by its
position. add returns nothing: it always marks the tile dirty and appends the contribution.
update returns whether the contribution changed. remove returns the removed contribution,
or none if the id was not present in the tile. -/
structure TileGeometryCache (ObjectId Shape Transform AreaType Border Removed Tiles : Type)
    where
  add : ObjectId → Shape → Transform → AreaType → TilePosition → Border → Tiles → Tiles
  update : ObjectId → Transform → AreaType → TilePosition → Tiles → Bool × Tiles
  remove : ObjectId → TilePosition → Tiles → Option Removed × Tiles

/-- Modelled from the spec: addTile, updateTile and removeTile of
tilecachedrecastmeshmanager.cpp (not at hand) as section 4.3 describes them: newly overlapped
tiles are added, tiles in both sets are delegated to the update of the tile, tiles no longer
overlapped are removed. As add always registers the contribution, addTile reports true. -/
def TileGeometryCache.helpers
    (c : TileGeometryCache ObjectId Shape Transform AreaType Border Removed Tiles)
    (getBorderSize : Settings → Border)
    (getTilesPositions : Shape → Transform → Settings → List TilePosition) :
    TileHelpers ObjectId Shape Transform AreaType Settings Border Removed Tiles :=
  { getBorderSize := getBorderSize
    getTilesPositions := getTilesPositions
    addTile := fun id shape transform areaType tilePosition border tiles =>
      (true, c.add id shape transform areaType tilePosition border tiles)
    updateTile := c.update
    removeTile := c.remove }

end UpdateObject

/-! ### A small instance for evaluation -/

/-- A tile cache for evaluation: the tile map is the list of contributions
(tile, object id, transform), in order of registration. -/
def listCache : TileGeometryCache Nat (List TilePosition) TilePosition Nat Nat
    (TilePosition × Nat × TilePosition) (List (TilePosition × Nat × TilePosition)) :=
  { add := fun id _ transform _ tilePosition _ tiles => tiles ++ [(tilePosition, id, transform)]
    update := fun id transform _ tilePosition tiles =>
      (tiles.any (fun e => decide (e.1 = tilePosition ∧ e.2.1 = id ∧ e.2.2 ≠ transform)),
        tiles.map (fun e =>
          if e.1 = tilePosition ∧ e.2.1 = id then (tilePosition, id, transform) else e))
    remove := fun id tilePosition tiles =>
      (tiles.find? (fun e => decide (e.1 = tilePosition ∧ e.2.1 = id)),
        tiles.filter (fun e => !decide (e.1 = tilePosition ∧ e.2.1 = id))) }

/-- Tile positions for evaluation: a shape is the list of tiles it covers at the origin, a
transform is a translation by whole tiles. -/
def listTilesPositions (shape : List TilePosition) (transform : TilePosition) (_ : Unit) :
    List TilePosition :=
  shape.map (fun t => ⟨t.x + transform.x, t.y + transform.y⟩)

/-- Border size for evaluation: 0. -/
def listBorderSize (_ : Unit) : Nat := 0

/-- Helpers for evaluation, over listCache. -/
def listHelpers : TileHelpers Nat (List TilePosition) TilePosition Nat Unit Nat
    (TilePosition × Nat × TilePosition) (List (TilePosition × Nat × TilePosition)) :=
  listCache.helpers listBorderSize listTilesPositions

/-- A manager for evaluation: object 1 covers the tiles (0,0) and (1,0), revision 3. -/
def listManager : TileCachedRecastMeshManager Nat Unit (List (TilePosition × Nat × TilePosition)) :=
  { mSettings := ()
    mTiles := [(⟨0, 0⟩, 1, ⟨0, 0⟩), (⟨1, 0⟩, 1, ⟨0, 0⟩)]
    mObjectsTilesPositions := fun k => if k = 1 then some [⟨0, 0⟩, ⟨1, 0⟩] else none
    mRevision := 3 }

/-! ### RecastMeshObject -/

/-- Modelled from the spec: a collision shape as far as RecastMeshObject looks at it. The
shape classes belong to the physics library and RecastMeshObject itself
(recastmeshobject.cpp) is not at hand; the spec and the test distinguish a shape that is not
compound from a compound shape, which has children, each with its own transform. -/
inductive CollisionShape (Transform : Type) where
  | simple
  | compound (childTransforms : List Transform)

/-- Modelled from the spec: updateChildTransform of the compound shape, as the test uses it:
the transform of the child with the given index is replaced. -/
def CollisionShape.updateChildTransform {Transform : Type} (shape : CollisionShape Transform)
    (index : Nat) (transform : Transform) : CollisionShape Transform :=
  match shape with
  | .simple => .simple
  | .compound childTransforms => .compound (childTransforms.set index transform)

/-- Modelled from the spec: RecastMeshObject, whose code is not at hand (only its test is).
The object refers to its shape and records the transform it was last given and, for a
compound shape, the transform of each child as last seen. -/
structure RecastMeshObject (Transform : Type) where
  mTransform : Transform
  mChildren : List Transform

/-- Modelled from the spec: the constructor of RecastMeshObject, as the test uses it: the
object records the given transform and the current child transforms of the shape. -/
def RecastMeshObject.create {Transform : Type} (shape : CollisionShape Transform)
    (transform : Transform) : RecastMeshObject Transform :=
  { mTransform := transform
    mChildren :=
      match shape with
      | .simple => []
      | .compound childTransforms => childTransforms }

/-- Modelled from the spec: RecastMeshObject::update (section 4.2: update recomputes whether the
shape changed, for compound shapes checks each child transform too, and returns true if so;
section 7: a compound shape whose child count changed is a programming error that fails
loudly). shape is the current state of the shape the object refers to. The result is none
for the loud failure, otherwise the returned bool and the object with the values recorded. -/
def RecastMeshObject.update {Transform : Type} [DecidableEq Transform]
    (o : RecastMeshObject Transform) (shape : CollisionShape Transform)
    (transform : Transform) : Option (Bool × RecastMeshObject Transform) :=
  match shape with
  | .simple => some (decide (transform ≠ o.mTransform), { o with mTransform := transform })
  | .compound childTransforms =>
    if childTransforms.length = o.mChildren.length then
      some (decide (transform ≠ o.mTransform) ||
          (List.zipWith (fun c r => decide (c ≠ r)) childTransforms o.mChildren).any id,
        { mTransform := transform, mChildren := childTransforms })
    else none

/-! ## Theorems -/

/-! ### The priority queue -/

theorem pairLess_eq_false_iff (p q : Int × Int) :
    pairLess p q = false ↔ (q.1 < p.1 ∨ (q.1 = p.1 ∧ q.2 ≤ p.2)) := by
  simp only [pairLess, Bool.or_eq_false_iff, Bool.and_eq_false_iff, decide_eq_false_iff_not,
    Bool.not_eq_false', decide_eq_true_eq, Bool.not_eq_true']
  omega

theorem pairLess_eq_true_iff (p q : Int × Int) :
    pairLess p q = true ↔ (p.1 < q.1 ∨ (p.1 = q.1 ∧ p.2 < q.2)) := by
  simp only [pairLess, Bool.or_eq_true, Bool.and_eq_true, decide_eq_true_eq, Bool.not_eq_true',
    decide_eq_false_iff_not]
  omega

theorem extractTop_perm {A C : Type} (j : Job A C) (js : List (Job A C)) :
    (j :: js).Perm ((extractTop j js).1 :: (extractTop j js).2) := by
  induction js generalizing j with
  | nil => simp [extractTop]
  | cons k ks ih =>
    simp only [extractTop]
    split
    · exact ((ih k).cons j).trans (List.Perm.swap _ _ _)
    · exact List.Perm.refl _

theorem pairLess_irrefl (p : Int × Int) : pairLess p p = false := by
  rw [pairLess_eq_false_iff]
  exact Or.inr ⟨rfl, le_refl _⟩

theorem pairLess_asymm {p q : Int × Int} (h : pairLess p q = true) : pairLess q p = false := by
  rw [pairLess_eq_true_iff] at h
  rw [pairLess_eq_false_iff]
  omega

theorem pairLess_false_trans {p q r : Int × Int} (h1 : pairLess p q = false)
    (h2 : pairLess q r = false) : pairLess p r = false := by
  rw [pairLess_eq_false_iff] at h1 h2 ⊢
  omega

theorem extractTop_min {A C : Type} (j : Job A C) (js : List (Job A C)) :
    ∀ k ∈ j :: js, pairLess k.mPriority (extractTop j js).1.mPriority = false := by
  induction js generalizing j with
  | nil =>
    intro k hk
    simp only [List.mem_singleton] at hk
    subst hk
    exact pairLess_irrefl _
  | cons k ks ih =>
    intro x hx
    have hih := ih k
    simp only [extractTop]
    split
    next hless =>
      rcases List.mem_cons.1 hx with rfl | hx1
      · exact pairLess_asymm hless
      · exact hih x hx1
    next hless =>
      have hless1 : pairLess (extractTop k ks).1.mPriority j.mPriority = false := by
        simpa [Job.less] using hless
      rcases List.mem_cons.1 hx with rfl | hx1
      · exact pairLess_irrefl _
      · exact pairLess_false_trans (hih x hx1) hless1

theorem extractTop_mem {A C : Type} (j : Job A C) (js : List (Job A C)) :
    (extractTop j js).1 ∈ j :: js :=
  (extractTop_perm j js).symm.subset (List.mem_cons_self _ _)

/-! ### Pending sets and the loop of post -/

namespace AsyncNavMeshUpdater

variable {A C : Type} [DecidableEq A]

theorem insertPushed_snd_apply (m : A → Option (List TilePosition)) (a : A) (t : TilePosition)
    (a1 : A) :
    (insertPushed m a t).2 a1
      = if a1 = a then
          some (if t ∈ (m a).getD [] then (m a).getD [] else t :: (m a).getD [])
        else m a1 := by
  unfold insertPushed
  by_cases ht : t ∈ (m a).getD [] <;> by_cases ha : a1 = a <;> simp [ht, ha]

theorem insertPushed_fst (m : A → Option (List TilePosition)) (a : A) (t : TilePosition) :
    (insertPushed m a t).1 = !pushedContains m a t := by
  unfold insertPushed pushedContains
  cases h : m a with
  | none => simp
  | some tiles => by_cases ht : t ∈ tiles <;> simp [ht]

theorem pushedContains_insertPushed (m : A → Option (List TilePosition)) (a : A)
    (t : TilePosition) (a1 : A) (t1 : TilePosition) :
    pushedContains (insertPushed m a t).2 a1 t1
      = (pushedContains m a1 t1 || decide (a1 = a ∧ t1 = t)) := by
  unfold pushedContains
  rw [insertPushed_snd_apply]
  by_cases ha : a1 = a
  · subst ha
    cases h : m a1 with
    | none => simp
    | some tiles =>
      by_cases ht : t ∈ tiles
      · by_cases ht1 : t1 = t <;> simp [ht, ht1]
      · simp [ht]
        rw [Bool.or_comm]
  · simp [ha]

theorem insertPushed_ne_nil (m : A → Option (List TilePosition)) (a : A) (t : TilePosition)
    (h : ∀ a1, m a1 ≠ some []) : ∀ a1, (insertPushed m a t).2 a1 ≠ some [] := by
  intro a1
  rw [insertPushed_snd_apply]
  by_cases ha : a1 = a
  · subst ha
    by_cases ht : t ∈ (m a1).getD []
    · simp only [if_true, ht]
      intro hnil
      rw [Option.some.injEq] at hnil
      rw [hnil] at ht
      exact absurd ht (List.not_mem_nil _)
    · simp [ht]
  · simp only [ha, if_false]
    exact h a1

theorem postTile_eq (a : A) (c : C) (p : TilePosition) (s : AsyncNavMeshUpdater A C)
    (t : TilePosition) :
    postTile a c p s t
      = if (insertPushed s.mPushed a t).1 then
          { s with
            mPushed := (insertPushed s.mPushed a t).2
            mJobs := s.mJobs ++ [⟨a, c, t, makePriority t p⟩] }
        else { s with mPushed := (insertPushed s.mPushed a t).2 } := rfl

theorem postTile_isPushed (a : A) (c : C) (p : TilePosition) (s : AsyncNavMeshUpdater A C)
    (t : TilePosition) (a1 : A) (t1 : TilePosition) :
    (postTile a c p s t).isPushed a1 t1 = (s.isPushed a1 t1 || decide (a1 = a ∧ t1 = t)) := by
  unfold isPushed
  rw [← pushedContains_insertPushed, postTile_eq]
  split <;> rfl

theorem postTile_mJobs (a : A) (c : C) (p : TilePosition) (s : AsyncNavMeshUpdater A C)
    (t : TilePosition) :
    (postTile a c p s t).mJobs
      = s.mJobs ++ (if s.isPushed a t then [] else [⟨a, c, t, makePriority t p⟩]) := by
  rw [postTile_eq, insertPushed_fst]
  unfold isPushed
  cases pushedContains s.mPushed a t <;> simp

theorem postTile_mPlayerTile (a : A) (c : C) (p : TilePosition) (s : AsyncNavMeshUpdater A C)
    (t : TilePosition) : (postTile a c p s t).mPlayerTile = s.mPlayerTile := by
  rw [postTile_eq]
  split <;> rfl

theorem postTile_mPushed_ne_nil (a : A) (c : C) (p : TilePosition) (s : AsyncNavMeshUpdater A C)
    (t : TilePosition) (h : ∀ a1, s.mPushed a1 ≠ some []) :
    ∀ a1, (postTile a c p s t).mPushed a1 ≠ some [] := by
  have h1 := insertPushed_ne_nil s.mPushed a t h
  rw [postTile_eq]
  split <;> exact h1

theorem postTile_queuedCount (a : A) (c : C) (p : TilePosition) (s : AsyncNavMeshUpdater A C)
    (t : TilePosition) (a1 : A) (t1 : TilePosition) :
    (postTile a c p s t).queuedCount a1 t1
      = s.queuedCount a1 t1 + (if s.isPushed a t = false ∧ a = a1 ∧ t = t1 then 1 else 0) := by
  unfold queuedCount
  rw [postTile_mJobs]
  cases hp : s.isPushed a t
  · by_cases hk : a = a1 ∧ t = t1
    · simp [List.countP_append, hk]
    · simp [List.countP_append, hk]
  · simp

theorem postTile_consistent (a : A) (c : C) (p : TilePosition) (s : AsyncNavMeshUpdater A C)
    (t : TilePosition) (h : s.Consistent) : (postTile a c p s t).Consistent := by
  refine ⟨?_, postTile_mPushed_ne_nil a c p s t h.2⟩
  intro a1 t1
  rw [postTile_queuedCount, postTile_isPushed, h.1 a1 t1]
  by_cases hk : a = a1 ∧ t = t1
  · obtain ⟨rfl, rfl⟩ := hk
    cases hp : s.isPushed a t <;> simp
  · have hk1 : ¬ (a1 = a ∧ t1 = t) := fun h1 => hk ⟨h1.1.symm, h1.2.symm⟩
    cases hp : s.isPushed a1 t1 <;> simp [hk, hk1]

theorem foldl_postTile_consistent (a : A) (c : C) (p : TilePosition) (ts : List TilePosition)
    (s : AsyncNavMeshUpdater A C) (h : s.Consistent) :
    (ts.foldl (postTile a c p) s).Consistent := by
  induction ts generalizing s with
  | nil => exact h
  | cons t ts ih => exact ih _ (postTile_consistent a c p s t h)

theorem post_consistent (s : AsyncNavMeshUpdater A C) (a : A) (c : C) (p : TilePosition)
    (ts : List TilePosition) (h : s.Consistent) : (s.post a c p ts).Consistent := by
  have h1 : (s.setPlayerTile p).Consistent := h
  unfold post
  split
  · exact h1
  · exact foldl_postTile_consistent a c p ts _ h1

theorem create_consistent : (create : AsyncNavMeshUpdater A C).Consistent := by
  refine ⟨?_, ?_⟩
  · intro a t
    simp [create, queuedCount, isPushed, pushedContains]
  · intro a
    simp [create]

/-! ### getNextJob -/

theorem getNextJob_nil (s : AsyncNavMeshUpdater A C) (h : s.mJobs = []) :
    s.getNextJob = some (none, s) := by
  unfold getNextJob
  rw [h]

theorem getNextJob_some_inv (s s1 : AsyncNavMeshUpdater A C) (job : Job A C)
    (h : s.getNextJob = some (some job, s1)) :
    ∃ j js tiles, s.mJobs = j :: js ∧ job = (extractTop j js).1 ∧
      s1.mJobs = (extractTop j js).2 ∧
      s.mPushed job.mAgentHalfExtents = some tiles ∧
      (∀ a, s1.mPushed a =
        if a = job.mAgentHalfExtents then
          (if (tiles.filter (fun t => decide (t ≠ job.mChangedTile))).isEmpty then none
           else some (tiles.filter (fun t => decide (t ≠ job.mChangedTile))))
        else s.mPushed a) ∧
      s1.mPlayerTile = s.mPlayerTile := by
  unfold getNextJob at h
  cases hj : s.mJobs with
  | nil =>
    rw [hj] at h
    simp at h
  | cons j js =>
    rw [hj] at h
    cases hm : s.mPushed (extractTop j js).1.mAgentHalfExtents with
    | none =>
      simp only [hm] at h
      exact absurd h (by simp)
    | some tiles =>
      simp only [hm, Option.some.injEq, Prod.mk.injEq] at h
      obtain ⟨h1, h2⟩ := h
      subst h1
      subst h2
      exact ⟨j, js, tiles, rfl, rfl, rfl, hm, fun a => rfl, rfl⟩

theorem getNextJob_perm (s s1 : AsyncNavMeshUpdater A C) (job : Job A C)
    (h : s.getNextJob = some (some job, s1)) : s.mJobs.Perm (job :: s1.mJobs) := by
  obtain ⟨j, js, tiles, h1, h2, h3, _⟩ := getNextJob_some_inv s s1 job h
  rw [h1, h2, h3]
  exact extractTop_perm j js

theorem getNextJob_min (s s1 : AsyncNavMeshUpdater A C) (job : Job A C)
    (h : s.getNextJob = some (some job, s1)) :
    ∀ k ∈ s.mJobs, pairLess k.mPriority job.mPriority = false := by
  obtain ⟨j, js, tiles, h1, h2, h3, _⟩ := getNextJob_some_inv s s1 job h
  rw [h1, h2]
  exact extractTop_min j js

theorem getNextJob_isPushed (s s1 : AsyncNavMeshUpdater A C) (job : Job A C)
    (h : s.getNextJob = some (some job, s1)) (a : A) (t : TilePosition) :
    s1.isPushed a t
      = (s.isPushed a t && !decide (a = job.mAgentHalfExtents ∧ t = job.mChangedTile)) := by
  obtain ⟨j, js, tiles, _, _, _, h4, h5, _⟩ := getNextJob_some_inv s s1 job h
  unfold isPushed pushedContains
  rw [h5 a]
  have hF : ∀ x, x ∈ tiles.filter (fun t => decide (t ≠ job.mChangedTile))
      ↔ x ∈ tiles ∧ x ≠ job.mChangedTile := by
    intro x
    simp [List.mem_filter]
  generalize tiles.filter (fun t => decide (t ≠ job.mChangedTile)) = F at hF
  by_cases ha : a = job.mAgentHalfExtents
  · subst ha
    rw [h4]
    simp only [if_true, true_and]
    cases F with
    | nil =>
      simp only [List.isEmpty_nil, if_true]
      have h1 := hF t
      by_cases ht : t = job.mChangedTile
      · simp [ht]
      · have hnot : t ∉ tiles := fun hmem => absurd (h1.2 ⟨hmem, ht⟩) (List.not_mem_nil _)
        simp [hnot]
    | cons x xs =>
      simp only [List.isEmpty_cons, Bool.false_eq_true, if_false]
      rw [Bool.eq_iff_iff]
      simp only [decide_eq_true_eq, Bool.and_eq_true, Bool.not_eq_true', decide_eq_false_iff_not]
      exact hF t
  · simp [ha]

theorem getNextJob_mPushed_ne_nil (s s1 : AsyncNavMeshUpdater A C) (job : Job A C)
    (h : s.getNextJob = some (some job, s1)) (hs : ∀ a, s.mPushed a ≠ some []) :
    ∀ a, s1.mPushed a ≠ some [] := by
  obtain ⟨j, js, tiles, _, _, _, _, h5, _⟩ := getNextJob_some_inv s s1 job h
  intro a
  rw [h5 a]
  generalize tiles.filter (fun t => decide (t ≠ job.mChangedTile)) = F
  by_cases ha : a = job.mAgentHalfExtents
  · cases F with
    | nil => simp [ha]
    | cons x xs => simp [ha]
  · simp only [ha, if_false]
    exact hs a

theorem getNextJob_none_inv (s s1 : AsyncNavMeshUpdater A C)
    (h : s.getNextJob = some (none, s1)) : s.mJobs = [] ∧ s1 = s := by
  cases hj : s.mJobs with
  | nil =>
    rw [getNextJob_nil s hj] at h
    simp only [Option.some.injEq, Prod.mk.injEq, true_and] at h
    exact ⟨rfl, h.symm⟩
  | cons j js =>
    unfold getNextJob at h
    rw [hj] at h
    cases hm : s.mPushed (extractTop j js).1.mAgentHalfExtents with
    | none =>
      simp only [hm] at h
      exact absurd h (by simp)
    | some tiles =>
      simp only [hm, Option.some.injEq, Prod.mk.injEq] at h
      exact absurd h.1 (by simp)

theorem queuedCount_getNextJob (s s1 : AsyncNavMeshUpdater A C) (job : Job A C)
    (h : s.getNextJob = some (some job, s1)) (a : A) (t : TilePosition) :
    s.queuedCount a t
      = s1.queuedCount a t
        + (if job.mAgentHalfExtents = a ∧ job.mChangedTile = t then 1 else 0) := by
  unfold queuedCount
  rw [(getNextJob_perm s s1 job h).countP_eq, List.countP_cons]
  simp

theorem getNextJob_consistent (s s1 : AsyncNavMeshUpdater A C) (r : Option (Job A C))
    (h : s.getNextJob = some (r, s1)) (hs : s.Consistent) : s1.Consistent := by
  cases r with
  | none =>
    rw [(getNextJob_none_inv s s1 h).2]
    exact hs
  | some job =>
    refine ⟨?_, getNextJob_mPushed_ne_nil s s1 job h hs.2⟩
    intro a t
    have hc := queuedCount_getNextJob s s1 job h a t
    have hp := getNextJob_isPushed s s1 job h a t
    have hi := hs.1 a t
    rw [hp]
    by_cases hk : job.mAgentHalfExtents = a ∧ job.mChangedTile = t
    · have hk1 : a = job.mAgentHalfExtents ∧ t = job.mChangedTile := ⟨hk.1.symm, hk.2.symm⟩
      rw [if_pos hk] at hc
      have : s1.queuedCount a t = 0 := by
        cases hq : s.isPushed a t
        · rw [hq] at hi
          simp at hi
          omega
        · rw [hq] at hi
          simp at hi
          omega
      rw [this]
      simp [hk1]
    · have hk1 : ¬ (a = job.mAgentHalfExtents ∧ t = job.mChangedTile) :=
        fun h1 => hk ⟨h1.1.symm, h1.2.symm⟩
      rw [if_neg hk] at hc
      simp only [hk1, decide_False, Bool.not_false, Bool.and_true]
      omega

theorem getNextJob_progress (s : AsyncNavMeshUpdater A C) (hs : s.Consistent)
    (hne : s.mJobs ≠ []) : ∃ job s1, s.getNextJob = some (some job, s1) := by
  cases hj : s.mJobs with
  | nil => exact absurd hj hne
  | cons j js =>
    have hmem : (extractTop j js).1 ∈ s.mJobs := by
      rw [hj]
      exact extractTop_mem j js
    have hcount : 0 < s.queuedCount (extractTop j js).1.mAgentHalfExtents
        (extractTop j js).1.mChangedTile := by
      unfold queuedCount
      exact List.countP_pos_iff.2 ⟨_, hmem, by simp⟩
    have hi := hs.1 (extractTop j js).1.mAgentHalfExtents (extractTop j js).1.mChangedTile
    have hp : s.isPushed (extractTop j js).1.mAgentHalfExtents
        (extractTop j js).1.mChangedTile = true := by
      cases hq : s.isPushed (extractTop j js).1.mAgentHalfExtents
        (extractTop j js).1.mChangedTile
      · rw [hq] at hi
        simp at hi
        omega
      · rfl
    unfold isPushed pushedContains at hp
    cases hm : s.mPushed (extractTop j js).1.mAgentHalfExtents with
    | none =>
      rw [hm] at hp
      exact absurd hp (by simp)
    | some tiles =>
      refine ⟨(extractTop j js).1, ?_⟩
      unfold getNextJob
      rw [hj]
      simp only [hm]
      exact ⟨_, rfl⟩

/-! ### The whole loop of post -/

theorem foldl_postTile_isPushed (a : A) (c : C) (p : TilePosition) (ts : List TilePosition)
    (s : AsyncNavMeshUpdater A C) (a1 : A) (t1 : TilePosition) :
    (ts.foldl (postTile a c p) s).isPushed a1 t1
      = (s.isPushed a1 t1 || decide (a1 = a ∧ t1 ∈ ts)) := by
  induction ts generalizing s with
  | nil => simp
  | cons t ts ih =>
    rw [List.foldl_cons, ih, postTile_isPushed, Bool.eq_iff_iff]
    simp only [Bool.or_eq_true, decide_eq_true_eq, List.mem_cons]
    tauto

theorem post_isPushed (s : AsyncNavMeshUpdater A C) (a : A) (c : C) (p : TilePosition)
    (ts : List TilePosition) (a1 : A) (t1 : TilePosition) :
    (s.post a c p ts).isPushed a1 t1 = (s.isPushed a1 t1 || decide (a1 = a ∧ t1 ∈ ts)) := by
  unfold post
  cases ts with
  | nil => simp [isPushed, setPlayerTile]
  | cons t ts =>
    simp only [List.isEmpty_cons, Bool.false_eq_true, if_false]
    rw [foldl_postTile_isPushed]
    rfl

theorem foldl_postTile_mJobs (a : A) (c : C) (p : TilePosition) (ts : List TilePosition)
    (s : AsyncNavMeshUpdater A C) :
    ∃ newJobs, (ts.foldl (postTile a c p) s).mJobs = s.mJobs ++ newJobs ∧
      ∀ j ∈ newJobs, j.mAgentHalfExtents = a ∧ j.mNavMeshCacheItem = c ∧ j.mChangedTile ∈ ts ∧
        j.mPriority = makePriority j.mChangedTile p ∧ s.isPushed a j.mChangedTile = false := by
  induction ts generalizing s with
  | nil => exact ⟨[], by simp, by simp⟩
  | cons t ts ih =>
    obtain ⟨new1, h1, h2⟩ := ih (postTile a c p s t)
    rw [List.foldl_cons, h1, postTile_mJobs, List.append_assoc]
    refine ⟨_, rfl, ?_⟩
    intro j hj
    rcases List.mem_append.1 hj with hj1 | hj1
    · cases hp : s.isPushed a t
      · rw [hp] at hj1
        simp only [Bool.false_eq_true, if_false, List.mem_singleton] at hj1
        subst hj1
        exact ⟨rfl, rfl, List.mem_cons_self _ _, rfl, hp⟩
      · rw [hp] at hj1
        simp at hj1
    · obtain ⟨e1, e2, e3, e4, e5⟩ := h2 j hj1
      rw [postTile_isPushed] at e5
      simp only [Bool.or_eq_false_iff] at e5
      exact ⟨e1, e2, List.mem_cons_of_mem _ e3, e4, e5.1⟩

theorem post_mJobs (s : AsyncNavMeshUpdater A C) (a : A) (c : C) (p : TilePosition)
    (ts : List TilePosition) :
    ∃ newJobs, (s.post a c p ts).mJobs = s.mJobs ++ newJobs ∧
      ∀ j ∈ newJobs, j.mAgentHalfExtents = a ∧ j.mNavMeshCacheItem = c ∧ j.mChangedTile ∈ ts ∧
        j.mPriority = makePriority j.mChangedTile p ∧ s.isPushed a j.mChangedTile = false := by
  unfold post
  cases ts with
  | nil => exact ⟨[], by simp [setPlayerTile], by simp⟩
  | cons t ts =>
    simp only [List.isEmpty_cons, Bool.false_eq_true, if_false]
    exact foldl_postTile_mJobs a c p (t :: ts) (s.setPlayerTile p)

theorem foldl_postTile_queuedCount (a : A) (c : C) (p : TilePosition) (ts : List TilePosition)
    (s : AsyncNavMeshUpdater A C) (a1 : A) (t1 : TilePosition) :
    (ts.foldl (postTile a c p) s).queuedCount a1 t1
      = s.queuedCount a1 t1
        + (if s.isPushed a1 t1 = false ∧ a1 = a ∧ t1 ∈ ts then 1 else 0) := by
  induction ts generalizing s with
  | nil => simp
  | cons t ts ih =>
    rw [List.foldl_cons, ih, postTile_queuedCount, postTile_isPushed]
    by_cases ha : a1 = a
    · subst ha
      by_cases ht : t1 = t
      · subst ht
        cases hp : s.isPushed a1 t1 <;> simp
      · have ht1 : ¬ t = t1 := fun h => ht h.symm
        cases hp : s.isPushed a1 t1 <;> simp [ht, ht1]
    · have ha1 : ¬ a = a1 := fun h => ha h.symm
      simp [ha, ha1]

theorem post_queuedCount (s : AsyncNavMeshUpdater A C) (a : A) (c : C) (p : TilePosition)
    (ts : List TilePosition) (a1 : A) (t1 : TilePosition) :
    (s.post a c p ts).queuedCount a1 t1
      = s.queuedCount a1 t1
        + (if s.isPushed a1 t1 = false ∧ a1 = a ∧ t1 ∈ ts then 1 else 0) := by
  unfold post
  cases ts with
  | nil => simp [queuedCount, setPlayerTile]
  | cons t ts =>
    simp only [List.isEmpty_cons, Bool.false_eq_true, if_false]
    rw [foldl_postTile_queuedCount]
    rfl

theorem post_mPlayerTile (s : AsyncNavMeshUpdater A C) (a : A) (c : C) (p : TilePosition)
    (ts : List TilePosition) : (s.post a c p ts).mPlayerTile = p := by
  have hfold : ∀ (l : List TilePosition) (s0 : AsyncNavMeshUpdater A C),
      (l.foldl (postTile a c p) s0).mPlayerTile = s0.mPlayerTile := by
    intro l
    induction l with
    | nil => intro s0; rfl
    | cons t l ih =>
      intro s0
      rw [List.foldl_cons, ih, postTile_mPlayerTile]
  unfold post
  split
  · rfl
  · rw [hfold]
    rfl

end AsyncNavMeshUpdater

/-! ### Reachable states -/

theorem runCalls_consistent {A C : Type} [DecidableEq A] (calls : List (Call A C))
    (s s1 : AsyncNavMeshUpdater A C) (h : runCalls s calls = some s1) (hs : s.Consistent) :
    s1.Consistent := by
  induction calls generalizing s with
  | nil =>
    simp only [runCalls, Option.some.injEq] at h
    rw [← h]
    exact hs
  | cons c cs ih =>
    simp only [runCalls, Option.bind_eq_some] at h
    obtain ⟨s2, h1, h2⟩ := h
    refine ih s2 h2 ?_
    cases c with
    | post a item p ts =>
      simp only [applyCall, Option.some.injEq] at h1
      rw [← h1]
      exact AsyncNavMeshUpdater.post_consistent s a item p ts hs
    | getNextJob =>
      simp only [applyCall, Option.map_eq_some'] at h1
      obtain ⟨r, hr, hr2⟩ := h1
      rw [← hr2]
      exact AsyncNavMeshUpdater.getNextJob_consistent s r.2 r.1 hr hs

theorem reachable_consistent {A C : Type} [DecidableEq A] {s : AsyncNavMeshUpdater A C}
    (h : Reachable s) : s.Consistent := by
  obtain ⟨calls, hc⟩ := h
  exact runCalls_consistent calls _ s hc AsyncNavMeshUpdater.create_consistent

theorem getNextJob_isSome_of_consistent {A C : Type} [DecidableEq A]
    (s : AsyncNavMeshUpdater A C) (hs : s.Consistent) : ∃ r, s.getNextJob = some r := by
  by_cases hne : s.mJobs = []
  · exact ⟨_, AsyncNavMeshUpdater.getNextJob_nil s hne⟩
  · obtain ⟨job, s1, hg⟩ := AsyncNavMeshUpdater.getNextJob_progress s hs hne
    exact ⟨_, hg⟩

theorem runCalls_isSome_of_consistent {A C : Type} [DecidableEq A] (calls : List (Call A C))
    (s : AsyncNavMeshUpdater A C) (hs : s.Consistent) : ∃ s1, runCalls s calls = some s1 := by
  induction calls generalizing s with
  | nil => exact ⟨s, rfl⟩
  | cons c cs ih =>
    cases c with
    | post a item p ts =>
      obtain ⟨s1, h1⟩ := ih (s.post a item p ts)
        (AsyncNavMeshUpdater.post_consistent s a item p ts hs)
      exact ⟨s1, by simpa [runCalls, applyCall] using h1⟩
    | getNextJob =>
      obtain ⟨r, hr⟩ := getNextJob_isSome_of_consistent s hs
      obtain ⟨s1, h1⟩ := ih r.2 (AsyncNavMeshUpdater.getNextJob_consistent s r.2 r.1 hr hs)
      exact ⟨s1, by simpa [runCalls, applyCall, hr] using h1⟩

/-! ### Distances without overflow -/

theorem getDistance_eq (lhs rhs : TilePosition)
    (h : |lhs.x - rhs.x| + |lhs.y - rhs.y| < 2147483648) :
    getDistance lhs rhs = |lhs.x - rhs.x| + |lhs.y - rhs.y| := by
  have hx := abs_cases (lhs.x - rhs.x)
  have hy := abs_cases (lhs.y - rhs.y)
  generalize |lhs.x - rhs.x| = ax at *
  generalize |lhs.y - rhs.y| = ay at *
  unfold getDistance absInt wrapInt
  split_ifs <;> omega

theorem makePriority_eq (c p : TilePosition)
    (h1 : |c.x - p.x| + |c.y - p.y| < 2147483648) (h2 : |c.x| + |c.y| < 2147483648) :
    makePriority c p = (|c.x - p.x| + |c.y - p.y|, |c.x| + |c.y|) := by
  unfold makePriority
  rw [getDistance_eq c p h1, getDistance_eq c ⟨0, 0⟩ (by simpa using h2)]
  simp

/-! ### Claims on the scheduler -/

/-- C1: every sequence of post and getNextJob calls on a freshly constructed
AsyncNavMeshUpdater runs to a state, and in that state the queue holds at most one job for
each pair of agent half extents and tile, a tile is in the pending set mPushed[agent] exactly
when a job for that pair is queued, and two further post calls naming the same tile for the
same agent, with no getNextJob in between, leave exactly one queued job for the pair. -/
theorem queue_holds_one_job_per_agent_and_tile {A C : Type} [DecidableEq A]
    (calls : List (Call A C)) :
    ∃ s, runCalls AsyncNavMeshUpdater.create calls = some s ∧
      (∀ a t, s.queuedCount a t ≤ 1) ∧
      (∀ a t, s.isPushed a t = true ↔
        ∃ j ∈ s.mJobs, j.mAgentHalfExtents = a ∧ j.mChangedTile = t) ∧
      (∀ (a : A) (c1 c2 : C) (p1 p2 : TilePosition) (ts1 ts2 : List TilePosition)
        (t : TilePosition), t ∈ ts1 → t ∈ ts2 →
        ((s.post a c1 p1 ts1).post a c2 p2 ts2).queuedCount a t = 1) := by
  obtain ⟨s, hrun⟩ := runCalls_isSome_of_consistent calls
    (AsyncNavMeshUpdater.create : AsyncNavMeshUpdater A C) AsyncNavMeshUpdater.create_consistent
  have hs : s.Consistent := reachable_consistent ⟨calls, hrun⟩
  refine ⟨s, hrun, ?_, ?_, ?_⟩
  · intro a t
    rw [hs.1 a t]
    split <;> omega
  · intro a t
    have hi := hs.1 a t
    constructor
    · intro hp
      rw [hp] at hi
      have hpos : 0 < s.queuedCount a t := by
        rw [hi]
        simp
      obtain ⟨j, hj, hk⟩ := List.countP_pos_iff.1 hpos
      exact ⟨j, hj, by simpa using hk⟩
    · rintro ⟨j, hj, hk⟩
      have hpos : 0 < s.queuedCount a t := List.countP_pos_iff.2 ⟨j, hj, by simpa using hk⟩
      cases hp : s.isPushed a t
      · rw [hp] at hi
        simp at hi
        omega
      · rfl
  · intro a c1 c2 p1 p2 ts1 ts2 t h1 h2
    have hs2 : ((s.post a c1 p1 ts1).post a c2 p2 ts2).Consistent :=
      AsyncNavMeshUpdater.post_consistent _ a c2 p2 ts2
        (AsyncNavMeshUpdater.post_consistent s a c1 p1 ts1 hs)
    rw [hs2.1 a t, AsyncNavMeshUpdater.post_isPushed]
    simp [h2]

/-- Witness of C1: two posts naming tile (6,6) for agent 1, then a getNextJob. -/
theorem queue_holds_one_job_per_agent_and_tile_witness :
    ∃ s : AsyncNavMeshUpdater Nat Nat,
      runCalls AsyncNavMeshUpdater.create
        [Call.post 1 7 ⟨5, 5⟩ [⟨0, 0⟩, ⟨6, 6⟩], Call.post 1 8 ⟨2, 2⟩ [⟨6, 6⟩],
          Call.getNextJob] = some s ∧
      s.queuedCount 1 ⟨0, 0⟩ ≤ 1 ∧
      ((s.post 1 7 ⟨5, 5⟩ [⟨6, 6⟩]).post 1 8 ⟨2, 2⟩ [⟨6, 6⟩]).queuedCount 1 ⟨6, 6⟩ = 1 :=
  (queue_holds_one_job_per_agent_and_tile
    [Call.post 1 7 ⟨5, 5⟩ [⟨0, 0⟩, ⟨6, 6⟩], Call.post 1 8 ⟨2, 2⟩ [⟨6, 6⟩],
      Call.getNextJob]).imp
    (fun _ hs => ⟨hs.1, hs.2.1 1 ⟨0, 0⟩,
      hs.2.2.2 1 7 8 ⟨5, 5⟩ ⟨2, 2⟩ [⟨6, 6⟩] [⟨6, 6⟩] ⟨6, 6⟩ (by decide) (by decide)⟩)

/-- C2: as long as the int arithmetic does not overflow, makePriority(c, p) is the pair of
the Manhattan distance from c to the player tile p and the Manhattan distance from c to the
origin (0,0); and the jobs that post adds to the queue are jobs for tiles of changedTiles,
each carrying makePriority of its tile and of the playerTile argument of that call. -/
theorem makePriority_is_manhattan_pair {A C : Type} [DecidableEq A] :
    (∀ c p : TilePosition, |c.x - p.x| + |c.y - p.y| < 2147483648 →
      |c.x| + |c.y| < 2147483648 →
      makePriority c p = (|c.x - p.x| + |c.y - p.y|, |c.x| + |c.y|)) ∧
    (∀ (s : AsyncNavMeshUpdater A C) (a : A) (item : C) (p : TilePosition)
      (ts : List TilePosition),
      ∃ newJobs, (s.post a item p ts).mJobs = s.mJobs ++ newJobs ∧
        ∀ j ∈ newJobs, j.mChangedTile ∈ ts ∧ j.mPriority = makePriority j.mChangedTile p ∧
          (|j.mChangedTile.x - p.x| + |j.mChangedTile.y - p.y| < 2147483648 →
            |j.mChangedTile.x| + |j.mChangedTile.y| < 2147483648 →
            j.mPriority = (|j.mChangedTile.x - p.x| + |j.mChangedTile.y - p.y|,
              |j.mChangedTile.x| + |j.mChangedTile.y|))) := by
  refine ⟨makePriority_eq, ?_⟩
  intro s a item p ts
  obtain ⟨newJobs, h1, h2⟩ := AsyncNavMeshUpdater.post_mJobs s a item p ts
  refine ⟨newJobs, h1, ?_⟩
  intro j hj
  obtain ⟨_, _, e3, e4, _⟩ := h2 j hj
  refine ⟨e3, e4, ?_⟩
  intro b1 b2
  rw [e4]
  exact makePriority_eq _ _ b1 b2

/-- Witness of C2: changed tile (6,6) and player tile (5,5) give the pair (2,12). -/
theorem makePriority_is_manhattan_pair_witness :
    |(6 : Int) - 5| + |(6 : Int) - 5| < 2147483648 ∧ |(6 : Int)| + |(6 : Int)| < 2147483648 ∧
    makePriority ⟨6, 6⟩ ⟨5, 5⟩ = (|(6 : Int) - 5| + |(6 : Int) - 5|, |(6 : Int)| + |(6 : Int)|) :=
  ⟨by decide, by decide,
    (makePriority_is_manhattan_pair (A := Nat) (C := Nat)).1 ⟨6, 6⟩ ⟨5, 5⟩ (by decide)
      (by decide)⟩

/-- C3: on every reachable state with a non-empty queue getNextJob returns a job; the queue
before is the queue after plus exactly that job; its priority pair is lexicographically
least among the queued jobs, so a job dequeued next has a priority that is not smaller.
After post on a fresh scheduler with player tile (5,5) and changed tiles (0,0) and (6,6) the
first getNextJob returns the job for (6,6) with priority (2,12), the second the job for (0,0)
with priority (10,0). -/
theorem getNextJob_returns_least_priority {A C : Type} [DecidableEq A] :
    (∀ s : AsyncNavMeshUpdater A C, Reachable s → s.mJobs ≠ [] →
      ∃ job s1, s.getNextJob = some (some job, s1) ∧
        s.mJobs.Perm (job :: s1.mJobs) ∧
        (∀ k ∈ s.mJobs, job.mPriority.1 < k.mPriority.1 ∨
          (job.mPriority.1 = k.mPriority.1 ∧ job.mPriority.2 ≤ k.mPriority.2)) ∧
        (∀ k s2, s1.getNextJob = some (some k, s2) →
          job.mPriority.1 < k.mPriority.1 ∨
          (job.mPriority.1 = k.mPriority.1 ∧ job.mPriority.2 ≤ k.mPriority.2))) ∧
    (∀ (a : A) (c : C),
      ∃ j1 s1 j2 s2,
        ((AsyncNavMeshUpdater.create : AsyncNavMeshUpdater A C).post a c ⟨5, 5⟩
          [⟨0, 0⟩, ⟨6, 6⟩]).getNextJob = some (some j1, s1) ∧
        j1.mChangedTile = ⟨6, 6⟩ ∧ j1.mPriority = (2, 12) ∧
        s1.getNextJob = some (some j2, s2) ∧
        j2.mChangedTile = ⟨0, 0⟩ ∧ j2.mPriority = (10, 0) ∧ s2.mJobs = []) := by
  constructor
  · intro s hr hne
    obtain ⟨job, s1, hg⟩ := AsyncNavMeshUpdater.getNextJob_progress s (reachable_consistent hr) hne
    have hperm := AsyncNavMeshUpdater.getNextJob_perm s s1 job hg
    have hmin := AsyncNavMeshUpdater.getNextJob_min s s1 job hg
    have hle : ∀ k ∈ s.mJobs, job.mPriority.1 < k.mPriority.1 ∨
        (job.mPriority.1 = k.mPriority.1 ∧ job.mPriority.2 ≤ k.mPriority.2) :=
      fun k hk => (pairLess_eq_false_iff _ _).1 (hmin k hk)
    refine ⟨job, s1, hg, hperm, hle, ?_⟩
    intro k s2 hg2
    have hk1 : k ∈ k :: s2.mJobs := List.mem_cons_self _ _
    have hk2 : k ∈ s1.mJobs := (AsyncNavMeshUpdater.getNextJob_perm s1 s2 k hg2).symm.subset hk1
    exact hle k (hperm.symm.subset (List.mem_cons_of_mem _ hk2))
  · intro a c
    have hp1 : makePriority ⟨0, 0⟩ ⟨5, 5⟩ = (10, 0) := by decide
    have hp2 : makePriority ⟨6, 6⟩ ⟨5, 5⟩ = (2, 12) := by decide
    have hless : pairLess (2, 12) (10, 0) = true := by decide
    simp [AsyncNavMeshUpdater.post, AsyncNavMeshUpdater.postTile,
        AsyncNavMeshUpdater.insertPushed, AsyncNavMeshUpdater.getNextJob,
        AsyncNavMeshUpdater.create, AsyncNavMeshUpdater.setPlayerTile, extractTop, Job.less,
        hp1, hp2, hless]
    refine ⟨_, _, ⟨rfl, rfl⟩, rfl, rfl, ?_⟩
    simp [extractTop]
    exact ⟨_, _, ⟨rfl, rfl⟩, rfl, rfl, rfl⟩

theorem scenarioUpdater_reachable : Reachable scenarioUpdater :=
  ⟨[Call.post 1 7 ⟨5, 5⟩ [⟨0, 0⟩, ⟨6, 6⟩]], rfl⟩

/-- Witness of C3: the scheduler of the scenario is reachable and its queue is not empty. -/
theorem getNextJob_returns_least_priority_witness :
    Reachable scenarioUpdater ∧ scenarioUpdater.mJobs ≠ [] ∧
    ∃ job s1, scenarioUpdater.getNextJob = some (some job, s1) ∧
      scenarioUpdater.mJobs.Perm (job :: s1.mJobs) ∧
      (∀ k ∈ scenarioUpdater.mJobs, job.mPriority.1 < k.mPriority.1 ∨
        (job.mPriority.1 = k.mPriority.1 ∧ job.mPriority.2 ≤ k.mPriority.2)) ∧
      (∀ k s2, s1.getNextJob = some (some k, s2) →
        job.mPriority.1 < k.mPriority.1 ∨
        (job.mPriority.1 = k.mPriority.1 ∧ job.mPriority.2 ≤ k.mPriority.2)) :=
  ⟨scenarioUpdater_reachable, List.ne_nil_of_length_pos (by decide),
    getNextJob_returns_least_priority.1 scenarioUpdater scenarioUpdater_reachable
      (List.ne_nil_of_length_pos (by decide))⟩

/-- C4: wait() is to return only when no job is queued and none is in flight, but the code
lets it return with a job in flight. After a post for tile (0,0) and the getNextJob of the
worker, which pops the job before processJob runs on it, the queue is empty, so the
predicate of wait holds and wait returns at once, while the job for (0,0) is still being
processed by the worker. -/
theorem wait_predicate_holds_with_job_in_flight :
    ∃ w : Worker Nat Nat,
      Worker.run Worker.create [Action.post 1 7 ⟨5, 5⟩ [⟨0, 0⟩], Action.getNextJob] = some w ∧
      w.updater.waitPredicate = true ∧
      w.job.map (fun j => j.mChangedTile) = some ⟨0, 0⟩ :=
  ⟨_, rfl, rfl, rfl⟩

/-- C5: post with an empty changedTiles leaves the job queue and the pending sets as they
were and stores the player tile, so that getPlayerTile returns it afterwards. -/
theorem post_empty_only_sets_player_tile {A C : Type} [DecidableEq A]
    (s : AsyncNavMeshUpdater A C) (a : A) (item : C) (p : TilePosition) :
    (s.post a item p []).mJobs = s.mJobs ∧ (s.post a item p []).mPushed = s.mPushed ∧
    (s.post a item p []).getPlayerTile = p :=
  ⟨rfl, rfl, rfl⟩

/-- C10: when getNextJob returns a job for (agent, tile), the tile is not in mPushed[agent] on
return, the entry of the agent is gone exactly when no other tile was pending for it, and a
following post for the same agent that names the tile appends a new job for that pair (with
the cache item and the priority of that post) to the queue. -/
theorem getNextJob_clears_pending_flag {A C : Type} [DecidableEq A]
    (s s1 : AsyncNavMeshUpdater A C) (job : Job A C)
    (h : s.getNextJob = some (some job, s1)) :
    s1.isPushed job.mAgentHalfExtents job.mChangedTile = false ∧
    (s1.mPushed job.mAgentHalfExtents = none ↔
      ∀ t, s.isPushed job.mAgentHalfExtents t = true → t = job.mChangedTile) ∧
    (∀ (item : C) (p : TilePosition) (ts : List TilePosition), job.mChangedTile ∈ ts →
      ∃ newJobs, (s1.post job.mAgentHalfExtents item p ts).mJobs = s1.mJobs ++ newJobs ∧
        newJobs.countP (fun j => decide (j.mAgentHalfExtents = job.mAgentHalfExtents ∧
          j.mChangedTile = job.mChangedTile)) = 1 ∧
        ∀ j ∈ newJobs, j.mAgentHalfExtents = job.mAgentHalfExtents ∧
          j.mNavMeshCacheItem = item ∧ j.mPriority = makePriority j.mChangedTile p) := by
  have hclear : s1.isPushed job.mAgentHalfExtents job.mChangedTile = false := by
    rw [AsyncNavMeshUpdater.getNextJob_isPushed s s1 job h]
    simp
  refine ⟨hclear, ?_, ?_⟩
  · obtain ⟨j, js, tiles, _, _, _, h4, h5, _⟩ :=
      AsyncNavMeshUpdater.getNextJob_some_inv s s1 job h
    rw [h5 job.mAgentHalfExtents]
    simp only [if_true, AsyncNavMeshUpdater.isPushed, AsyncNavMeshUpdater.pushedContains, h4,
      decide_eq_true_eq]
    have hF : ∀ x, x ∈ tiles.filter (fun t => decide (t ≠ job.mChangedTile))
        ↔ x ∈ tiles ∧ x ≠ job.mChangedTile := by
      intro x
      simp [List.mem_filter]
    generalize tiles.filter (fun t => decide (t ≠ job.mChangedTile)) = F at hF
    cases F with
    | nil =>
      simp only [List.isEmpty_nil, if_true, true_iff]
      intro t ht
      by_contra hne
      exact absurd ((hF t).2 ⟨ht, hne⟩) (List.not_mem_nil _)
    | cons x xs =>
      simp only [List.isEmpty_cons, Bool.false_eq_true, if_false]
      constructor
      · intro hsome
        exact absurd hsome (by simp)
      · intro hall
        have hx := (hF x).1 (List.mem_cons_self _ _)
        exact absurd (hall x hx.1) hx.2
  · intro item p ts hmem
    obtain ⟨newJobs, h1, h2⟩ := AsyncNavMeshUpdater.post_mJobs s1 job.mAgentHalfExtents item p ts
    refine ⟨newJobs, h1, ?_, fun j hj => ⟨(h2 j hj).1, (h2 j hj).2.1, (h2 j hj).2.2.2.1⟩⟩
    have hc := AsyncNavMeshUpdater.post_queuedCount s1 job.mAgentHalfExtents item p ts
      job.mAgentHalfExtents job.mChangedTile
    unfold AsyncNavMeshUpdater.queuedCount at hc
    rw [h1, List.countP_append] at hc
    simp only [hclear, hmem, true_and, and_self, if_true] at hc
    omega

/-- Witness of C10: the first getNextJob of the scenario returns the job for tile (6,6). -/
theorem getNextJob_clears_pending_flag_witness :
    ∃ job s1, scenarioUpdater.getNextJob = some (some job, s1) ∧
      job.mChangedTile = ⟨6, 6⟩ ∧
      s1.isPushed job.mAgentHalfExtents job.mChangedTile = false ∧
      ∃ newJobs, (s1.post job.mAgentHalfExtents 9 ⟨0, 0⟩ [⟨6, 6⟩]).mJobs = s1.mJobs ++ newJobs ∧
        newJobs.countP (fun j => decide (j.mAgentHalfExtents = job.mAgentHalfExtents ∧
          j.mChangedTile = job.mChangedTile)) = 1 :=
  ⟨⟨1, 7, ⟨6, 6⟩, (2, 12)⟩, _, rfl, rfl,
    (getNextJob_clears_pending_flag scenarioUpdater _ ⟨1, 7, ⟨6, 6⟩, (2, 12)⟩ rfl).1,
    ((getNextJob_clears_pending_flag scenarioUpdater _ ⟨1, 7, ⟨6, 6⟩, (2, 12)⟩ rfl).2.2
      9 ⟨0, 0⟩ [⟨6, 6⟩] (by decide)).imp (fun _ hn => ⟨hn.1, hn.2.1⟩)⟩

/-! ### updateObject -/

theorem mem_setInsert (x t : TilePosition) (l : List TilePosition) :
    x ∈ setInsert t l ↔ x = t ∨ x ∈ l := by
  induction l with
  | nil => simp [setInsert]
  | cons u us ih =>
    simp only [setInsert]
    split_ifs with h1 h2
    · subst h1
      simp
    · simp
    · rw [List.mem_cons, ih, List.mem_cons]
      tauto

section UpdateObjectTheorems

variable {ObjectId Shape Transform AreaType Settings Border Removed Tiles : Type}

theorem onTilePosition_changed_iff
    (h : TileHelpers ObjectId Shape Transform AreaType Settings Border Removed Tiles)
    (id : ObjectId) (shape : Shape) (transform : Transform) (areaType : AreaType)
    (border : Border) (currentTiles : List TilePosition) (st : UpdateObjectLocals Tiles)
    (t : TilePosition) (hst : st.changed = true ↔ st.onChangedTile ≠ []) :
    (onTilePosition h id shape transform areaType border currentTiles st t).changed = true ↔
      (onTilePosition h id shape transform areaType border currentTiles st t).onChangedTile
        ≠ [] := by
  simp only [onTilePosition]
  split_ifs <;> simp [hst]

theorem removeOldTile_changed_iff
    (h : TileHelpers ObjectId Shape Transform AreaType Settings Border Removed Tiles)
    (id : ObjectId) (st : UpdateObjectLocals Tiles) (t : TilePosition)
    (hst : st.changed = true ↔ st.onChangedTile ≠ []) :
    (removeOldTile h id st t).changed = true ↔ (removeOldTile h id st t).onChangedTile ≠ [] := by
  simp only [removeOldTile]
  split_ifs <;> simp [hst]

theorem foldl_onTilePosition_changed_iff
    (h : TileHelpers ObjectId Shape Transform AreaType Settings Border Removed Tiles)
    (id : ObjectId) (shape : Shape) (transform : Transform) (areaType : AreaType)
    (border : Border) (currentTiles : List TilePosition) (ts : List TilePosition)
    (st : UpdateObjectLocals Tiles) (hst : st.changed = true ↔ st.onChangedTile ≠ []) :
    (ts.foldl (onTilePosition h id shape transform areaType border currentTiles) st).changed
        = true ↔
      (ts.foldl (onTilePosition h id shape transform areaType border currentTiles)
        st).onChangedTile ≠ [] := by
  induction ts generalizing st with
  | nil => exact hst
  | cons t ts ih =>
    exact ih _ (onTilePosition_changed_iff h id shape transform areaType border currentTiles
      st t hst)

theorem foldl_removeOldTile_changed_iff
    (h : TileHelpers ObjectId Shape Transform AreaType Settings Border Removed Tiles)
    (id : ObjectId) (ts : List TilePosition) (st : UpdateObjectLocals Tiles)
    (hst : st.changed = true ↔ st.onChangedTile ≠ []) :
    (ts.foldl (removeOldTile h id) st).changed = true ↔
      (ts.foldl (removeOldTile h id) st).onChangedTile ≠ [] := by
  induction ts generalizing st with
  | nil => exact hst
  | cons t ts ih => exact ih _ (removeOldTile_changed_iff h id st t hst)

theorem removeOldTile_newTiles
    (h : TileHelpers ObjectId Shape Transform AreaType Settings Border Removed Tiles)
    (id : ObjectId) (st : UpdateObjectLocals Tiles) (t : TilePosition) :
    (removeOldTile h id st t).newTiles = st.newTiles := by
  simp only [removeOldTile]
  split_ifs <;> rfl

theorem foldl_removeOldTile_newTiles
    (h : TileHelpers ObjectId Shape Transform AreaType Settings Border Removed Tiles)
    (id : ObjectId) (ts : List TilePosition) (st : UpdateObjectLocals Tiles) :
    (ts.foldl (removeOldTile h id) st).newTiles = st.newTiles := by
  induction ts generalizing st with
  | nil => rfl
  | cons t ts ih => rw [List.foldl_cons, ih, removeOldTile_newTiles]

theorem onTilePosition_newTiles_of_addTile
    (h : TileHelpers ObjectId Shape Transform AreaType Settings Border Removed Tiles)
    (hadd : ∀ id shape transform areaType t border tiles,
      (h.addTile id shape transform areaType t border tiles).1 = true)
    (id : ObjectId) (shape : Shape) (transform : Transform) (areaType : AreaType)
    (border : Border) (currentTiles : List TilePosition) (st : UpdateObjectLocals Tiles)
    (t : TilePosition) :
    (onTilePosition h id shape transform areaType border currentTiles st t).newTiles
      = setInsert t st.newTiles := by
  simp only [onTilePosition]
  split_ifs with h1 h2 h3
  · rfl
  · rfl
  · rfl
  · exact absurd (hadd id shape transform areaType t border st.tiles) h3

theorem foldl_onTilePosition_newTiles_of_addTile
    (h : TileHelpers ObjectId Shape Transform AreaType Settings Border Removed Tiles)
    (hadd : ∀ id shape transform areaType t border tiles,
      (h.addTile id shape transform areaType t border tiles).1 = true)
    (id : ObjectId) (shape : Shape) (transform : Transform) (areaType : AreaType)
    (border : Border) (currentTiles : List TilePosition) (ts : List TilePosition)
    (st : UpdateObjectLocals Tiles) (t : TilePosition) :
    t ∈ (ts.foldl (onTilePosition h id shape transform areaType border currentTiles)
        st).newTiles ↔ t ∈ st.newTiles ∨ t ∈ ts := by
  induction ts generalizing st with
  | nil => simp
  | cons t1 ts ih =>
    rw [List.foldl_cons, ih, onTilePosition_newTiles_of_addTile h hadd, mem_setInsert,
      List.mem_cons]
    tauto

theorem updateObjectTiles_changed_iff
    (h : TileHelpers ObjectId Shape Transform AreaType Settings Border Removed Tiles)
    (settings : Settings) (tiles : Tiles) (id : ObjectId) (shape : Shape)
    (transform : Transform) (areaType : AreaType) (border : Border)
    (currentTiles : List TilePosition) :
    (updateObjectTiles h settings tiles id shape transform areaType border
        currentTiles).changed = true ↔
      (updateObjectTiles h settings tiles id shape transform areaType border
        currentTiles).onChangedTile ≠ [] :=
  foldl_removeOldTile_changed_iff h id currentTiles _
    (foldl_onTilePosition_changed_iff h id shape transform areaType border currentTiles _ _
      (by simp))

theorem updateObjectTiles_newTiles_of_addTile
    (h : TileHelpers ObjectId Shape Transform AreaType Settings Border Removed Tiles)
    (hadd : ∀ id shape transform areaType t border tiles,
      (h.addTile id shape transform areaType t border tiles).1 = true)
    (settings : Settings) (tiles : Tiles) (id : ObjectId) (shape : Shape)
    (transform : Transform) (areaType : AreaType) (border : Border)
    (currentTiles : List TilePosition) (t : TilePosition) :
    t ∈ (updateObjectTiles h settings tiles id shape transform areaType border
        currentTiles).newTiles ↔ t ∈ h.getTilesPositions shape transform settings := by
  unfold updateObjectTiles
  rw [foldl_removeOldTile_newTiles, foldl_onTilePosition_newTiles_of_addTile h hadd]
  simp

theorem mem_foldl_log {S : Type} (f : S → TilePosition → S) (log : S → List TilePosition)
    (rep : S → TilePosition → Bool)
    (hstep : ∀ st t, log (f st t) = log st ++ if rep st t then [t] else [])
    (ts : List TilePosition) (st : S) (x : TilePosition) :
    x ∈ log (ts.foldl f st) ↔
      x ∈ log st ∨ ∃ pre post, ts = pre ++ x :: post ∧ rep (pre.foldl f st) x = true := by
  induction ts generalizing st with
  | nil => simp
  | cons t ts ih =>
    rw [List.foldl_cons, ih, hstep]
    constructor
    · rintro (hx | ⟨pre, post, hts, hrep⟩)
      · rcases List.mem_append.1 hx with hx1 | hx1
        · exact Or.inl hx1
        · cases hr : rep st t
          · rw [hr] at hx1
            simp at hx1
          · rw [hr] at hx1
            simp only [if_true, List.mem_singleton] at hx1
            subst hx1
            exact Or.inr ⟨[], ts, rfl, hr⟩
      · exact Or.inr ⟨t :: pre, post, by rw [hts]; rfl, hrep⟩
    · rintro (hx | ⟨pre, post, hts, hrep⟩)
      · exact Or.inl (List.mem_append_left _ hx)
      · cases pre with
        | nil =>
          simp only [List.nil_append, List.cons.injEq] at hts
          obtain ⟨h1, _⟩ := hts
          subst h1
          simp only [List.foldl_nil] at hrep
          refine Or.inl (List.mem_append_right _ ?_)
          rw [hrep]
          simp
        | cons p pre =>
          simp only [List.cons_append, List.cons.injEq] at hts
          obtain ⟨h1, h2⟩ := hts
          subst h1
          exact Or.inr ⟨pre, post, h2, hrep⟩

theorem onTilePosition_onChangedTile
    (h : TileHelpers ObjectId Shape Transform AreaType Settings Border Removed Tiles)
    (id : ObjectId) (shape : Shape) (transform : Transform) (areaType : AreaType)
    (border : Border) (currentTiles : List TilePosition) (st : UpdateObjectLocals Tiles)
    (t : TilePosition) :
    (onTilePosition h id shape transform areaType border currentTiles st t).onChangedTile
      = st.onChangedTile ++
        if (if t ∈ currentTiles then (h.updateTile id transform areaType t st.tiles).1
          else (h.addTile id shape transform areaType t border st.tiles).1) then [t]
        else [] := by
  simp only [onTilePosition]
  split_ifs <;> simp_all

theorem removeOldTile_onChangedTile
    (h : TileHelpers ObjectId Shape Transform AreaType Settings Border Removed Tiles)
    (id : ObjectId) (st : UpdateObjectLocals Tiles) (t : TilePosition) :
    (removeOldTile h id st t).onChangedTile
      = st.onChangedTile ++
        if (decide (t ∉ st.newTiles) && (h.removeTile id t st.tiles).1.isSome) then [t]
        else [] := by
  simp only [removeOldTile]
  split_ifs <;> simp_all

theorem mem_updateObjectTiles_onChangedTile [DecidableEq ObjectId]
    (h : TileHelpers ObjectId Shape Transform AreaType Settings Border Removed Tiles)
    (m : TileCachedRecastMeshManager ObjectId Settings Tiles)
    (id : ObjectId) (shape : Shape) (transform : Transform) (areaType : AreaType)
    (currentTiles : List TilePosition) (t : TilePosition) :
    t ∈ (updateObjectTiles h m.mSettings m.mTiles id shape transform areaType
        (h.getBorderSize m.mSettings) currentTiles).onChangedTile ↔
      TileReportsChange h m id shape transform areaType currentTiles t := by
  unfold updateObjectTiles TileReportsChange localsAfterPositions
  rw [mem_foldl_log (removeOldTile h id) (fun st => st.onChangedTile)
      (fun st t => decide (t ∉ st.newTiles) && (h.removeTile id t st.tiles).1.isSome)
      (removeOldTile_onChangedTile h id),
    mem_foldl_log
      (onTilePosition h id shape transform areaType (h.getBorderSize m.mSettings) currentTiles)
      (fun st => st.onChangedTile)
      (fun st t => if t ∈ currentTiles then (h.updateTile id transform areaType t st.tiles).1
        else (h.addTile id shape transform areaType t (h.getBorderSize m.mSettings)
          st.tiles).1)
      (onTilePosition_onChangedTile h id shape transform areaType
        (h.getBorderSize m.mSettings) currentTiles)]
  simp

theorem updateObject_of_tracked [DecidableEq ObjectId]
    (h : TileHelpers ObjectId Shape Transform AreaType Settings Border Removed Tiles)
    (m : TileCachedRecastMeshManager ObjectId Settings Tiles)
    (id : ObjectId) (shape : Shape) (transform : Transform) (areaType : AreaType)
    (currentTiles : List TilePosition) (hm : m.mObjectsTilesPositions id = some currentTiles) :
    updateObject h m id shape transform areaType =
      ((updateObjectTiles h m.mSettings m.mTiles id shape transform areaType
          (h.getBorderSize m.mSettings) currentTiles).changed,
        (updateObjectTiles h m.mSettings m.mTiles id shape transform areaType
          (h.getBorderSize m.mSettings) currentTiles).onChangedTile,
        { m with
          mTiles := (updateObjectTiles h m.mSettings m.mTiles id shape transform areaType
            (h.getBorderSize m.mSettings) currentTiles).tiles
          mObjectsTilesPositions := fun k =>
            if k = id then
              some (updateObjectTiles h m.mSettings m.mTiles id shape transform areaType
                (h.getBorderSize m.mSettings) currentTiles).newTiles
            else m.mObjectsTilesPositions k
          mRevision :=
            if (updateObjectTiles h m.mSettings m.mTiles id shape transform areaType
              (h.getBorderSize m.mSettings) currentTiles).changed
            then (m.mRevision + 1) % 18446744073709551616 else m.mRevision }) := by
  unfold updateObject
  rw [hm]

theorem updateObject_of_untracked [DecidableEq ObjectId]
    (h : TileHelpers ObjectId Shape Transform AreaType Settings Border Removed Tiles)
    (m : TileCachedRecastMeshManager ObjectId Settings Tiles)
    (id : ObjectId) (shape : Shape) (transform : Transform) (areaType : AreaType)
    (hm : m.mObjectsTilesPositions id = none) :
    updateObject h m id shape transform areaType = (false, [], m) := by
  unfold updateObject
  rw [hm]

end UpdateObjectTheorems

/-! ### Claims on updateObject -/

/-- C6: after updateObject on a tracked id the occupancy set stored for the id in
mObjectsTilesPositions holds exactly the tile positions reported by getTilesPositions for the
shape and the transform of the call (with the tile cache of the spec, whose add always
registers); the sets stored for other ids are as before. -/
theorem updateObject_stores_overlapped_tiles
    {ObjectId Shape Transform AreaType Settings Border Removed Tiles : Type}
    [DecidableEq ObjectId]
    (c : TileGeometryCache ObjectId Shape Transform AreaType Border Removed Tiles)
    (getBorderSize : Settings → Border)
    (getTilesPositions : Shape → Transform → Settings → List TilePosition)
    (m : TileCachedRecastMeshManager ObjectId Settings Tiles)
    (id : ObjectId) (shape : Shape) (transform : Transform) (areaType : AreaType)
    (currentTiles : List TilePosition) (hm : m.mObjectsTilesPositions id = some currentTiles) :
    (∃ stored,
      (updateObject (c.helpers getBorderSize getTilesPositions) m id shape transform
        areaType).2.2.mObjectsTilesPositions id = some stored ∧
      ∀ t, t ∈ stored ↔ t ∈ getTilesPositions shape transform m.mSettings) ∧
    (∀ k, k ≠ id →
      (updateObject (c.helpers getBorderSize getTilesPositions) m id shape transform
        areaType).2.2.mObjectsTilesPositions k = m.mObjectsTilesPositions k) := by
  rw [updateObject_of_tracked _ m id shape transform areaType currentTiles hm]
  constructor
  · refine ⟨_, if_pos rfl, ?_⟩
    intro t
    exact updateObjectTiles_newTiles_of_addTile (c.helpers getBorderSize getTilesPositions)
      (fun _ _ _ _ _ _ _ => rfl) m.mSettings m.mTiles id shape transform areaType _
      currentTiles t
  · intro k hk
    exact if_neg hk

/-- Witness of C6: object 1 of the sample manager, moved by one tile. -/
theorem updateObject_stores_overlapped_tiles_witness :
    listManager.mObjectsTilesPositions 1 = some [⟨0, 0⟩, ⟨1, 0⟩] ∧
    (∃ stored,
      (updateObject (listCache.helpers listBorderSize listTilesPositions) listManager 1
        [⟨0, 0⟩, ⟨1, 0⟩] ⟨1, 0⟩ 0).2.2.mObjectsTilesPositions 1 = some stored ∧
      ∀ t, t ∈ stored ↔
        t ∈ listTilesPositions [⟨0, 0⟩, ⟨1, 0⟩] ⟨1, 0⟩ listManager.mSettings) :=
  ⟨rfl, (updateObject_stores_overlapped_tiles listCache listBorderSize listTilesPositions
    listManager 1 [⟨0, 0⟩, ⟨1, 0⟩] ⟨1, 0⟩ 0 [⟨0, 0⟩, ⟨1, 0⟩] rfl).1⟩

/-- C7: updateObject returns true exactly when onChangedTile was called at least once; on a
tracked id onChangedTile is called with a tile exactly when a per-tile update, add or remove
performed for that tile reports an effective change, so that true is returned exactly when
some updateTile, addTile or removeTile of the call reports one; when updateObject returns
true the revision mRevision is incremented once (in std::size_t arithmetic, that is by
exactly 1 unless the counter wraps), and when it returns false mRevision is as before. -/
theorem updateObject_true_iff_changed_tile
    {ObjectId Shape Transform AreaType Settings Border Removed Tiles : Type}
    [DecidableEq ObjectId]
    (h : TileHelpers ObjectId Shape Transform AreaType Settings Border Removed Tiles)
    (m : TileCachedRecastMeshManager ObjectId Settings Tiles)
    (id : ObjectId) (shape : Shape) (transform : Transform) (areaType : AreaType) :
    ((updateObject h m id shape transform areaType).1 = true ↔
      (updateObject h m id shape transform areaType).2.1 ≠ []) ∧
    (∀ currentTiles, m.mObjectsTilesPositions id = some currentTiles →
      (∀ t, t ∈ (updateObject h m id shape transform areaType).2.1 ↔
        TileReportsChange h m id shape transform areaType currentTiles t) ∧
      ((updateObject h m id shape transform areaType).1 = true ↔
        ∃ t, TileReportsChange h m id shape transform areaType currentTiles t)) ∧
    ((updateObject h m id shape transform areaType).1 = true →
      (updateObject h m id shape transform areaType).2.2.mRevision
        = (m.mRevision + 1) % 18446744073709551616) ∧
    ((updateObject h m id shape transform areaType).1 = true →
      m.mRevision + 1 < 18446744073709551616 →
      (updateObject h m id shape transform areaType).2.2.mRevision = m.mRevision + 1) ∧
    ((updateObject h m id shape transform areaType).1 = false →
      (updateObject h m id shape transform areaType).2.2.mRevision = m.mRevision) := by
  cases hm : m.mObjectsTilesPositions id with
  | none =>
    rw [updateObject_of_untracked h m id shape transform areaType hm]
    simp
  | some currentTiles =>
    rw [updateObject_of_tracked h m id shape transform areaType currentTiles hm]
    have hiff := updateObjectTiles_changed_iff h m.mSettings m.mTiles id shape transform
      areaType (h.getBorderSize m.mSettings) currentTiles
    have hmem := mem_updateObjectTiles_onChangedTile h m id shape transform areaType
      currentTiles
    generalize updateObjectTiles h m.mSettings m.mTiles id shape transform areaType
      (h.getBorderSize m.mSettings) currentTiles = st at hiff hmem
    refine ⟨hiff, ?_, ?_, ?_, ?_⟩
    · intro cur hcur
      have hc : currentTiles = cur := Option.some.inj hcur
      subst hc
      refine ⟨hmem, ?_⟩
      show st.changed = true ↔ _
      rw [hiff]
      constructor
      · intro hne
        obtain ⟨t, ht⟩ := List.exists_mem_of_ne_nil _ hne
        exact ⟨t, (hmem t).1 ht⟩
      · rintro ⟨t, ht⟩
        exact List.ne_nil_of_mem ((hmem t).2 ht)
    · intro hc
      exact if_pos hc
    · intro hc hlt
      exact (if_pos hc).trans (Nat.mod_eq_of_lt hlt)
    · intro hc
      have hc1 : st.changed = false := hc
      simp [hc1]

/-- Witness of C7: moving object 1 of the sample manager by one tile adds tile (2,0), whose
addTile reports a change, and the revision goes from 3 to 4; leaving it in place makes no
helper report a change and false is returned. -/
theorem updateObject_true_iff_changed_tile_witness :
    (updateObject listHelpers listManager 1 [⟨0, 0⟩, ⟨1, 0⟩] ⟨1, 0⟩ 0).1 = true ∧
    listManager.mRevision + 1 < 18446744073709551616 ∧
    listManager.mObjectsTilesPositions 1 = some [⟨0, 0⟩, ⟨1, 0⟩] ∧
    (updateObject listHelpers listManager 1 [⟨0, 0⟩, ⟨1, 0⟩] ⟨1, 0⟩ 0).2.1 ≠ [] ∧
    TileReportsChange listHelpers listManager 1 [⟨0, 0⟩, ⟨1, 0⟩] ⟨1, 0⟩ 0 [⟨0, 0⟩, ⟨1, 0⟩]
      ⟨2, 0⟩ ∧
    (updateObject listHelpers listManager 1 [⟨0, 0⟩, ⟨1, 0⟩] ⟨1, 0⟩ 0).2.2.mRevision
      = listManager.mRevision + 1 ∧
    (updateObject listHelpers listManager 1 [⟨0, 0⟩, ⟨1, 0⟩] ⟨0, 0⟩ 0).1 = false ∧
    ¬ ∃ t, TileReportsChange listHelpers listManager 1 [⟨0, 0⟩, ⟨1, 0⟩] ⟨0, 0⟩ 0
      [⟨0, 0⟩, ⟨1, 0⟩] t :=
  ⟨by decide, by decide, rfl,
    (updateObject_true_iff_changed_tile listHelpers listManager 1 [⟨0, 0⟩, ⟨1, 0⟩] ⟨1, 0⟩
      0).1.1 (by decide),
    (((updateObject_true_iff_changed_tile listHelpers listManager 1 [⟨0, 0⟩, ⟨1, 0⟩] ⟨1, 0⟩
      0).2.1 [⟨0, 0⟩, ⟨1, 0⟩] rfl).1 ⟨2, 0⟩).1 (by decide),
    (updateObject_true_iff_changed_tile listHelpers listManager 1 [⟨0, 0⟩, ⟨1, 0⟩] ⟨1, 0⟩
      0).2.2.2.1 (by decide) (by decide),
    by decide,
    fun hex => absurd
      (((updateObject_true_iff_changed_tile listHelpers listManager 1 [⟨0, 0⟩, ⟨1, 0⟩] ⟨0, 0⟩
        0).2.1 [⟨0, 0⟩, ⟨1, 0⟩] rfl).2.2 hex) (by decide)⟩

/-- C8: for an id that is not tracked in mObjectsTilesPositions updateObject returns false,
does not call onChangedTile, and leaves the state (tile map, occupancy sets of all objects,
revision) as it was. -/
theorem updateObject_untracked_changes_nothing
    {ObjectId Shape Transform AreaType Settings Border Removed Tiles : Type}
    [DecidableEq ObjectId]
    (h : TileHelpers ObjectId Shape Transform AreaType Settings Border Removed Tiles)
    (m : TileCachedRecastMeshManager ObjectId Settings Tiles)
    (id : ObjectId) (shape : Shape) (transform : Transform) (areaType : AreaType)
    (hm : m.mObjectsTilesPositions id = none) :
    (updateObject h m id shape transform areaType).1 = false ∧
    (updateObject h m id shape transform areaType).2.1 = [] ∧
    (updateObject h m id shape transform areaType).2.2 = m ∧
    (updateObject h m id shape transform areaType).2.2.mTiles = m.mTiles ∧
    (∀ k, (updateObject h m id shape transform areaType).2.2.mObjectsTilesPositions k
      = m.mObjectsTilesPositions k) ∧
    (updateObject h m id shape transform areaType).2.2.mRevision = m.mRevision := by
  rw [updateObject_of_untracked h m id shape transform areaType hm]
  exact ⟨rfl, rfl, rfl, rfl, fun _ => rfl, rfl⟩

/-- Witness of C8: object 2 is not tracked by the sample manager. -/
theorem updateObject_untracked_changes_nothing_witness :
    listManager.mObjectsTilesPositions 2 = none ∧
    (updateObject listHelpers listManager 2 [⟨0, 0⟩] ⟨4, 4⟩ 0).1 = false ∧
    (updateObject listHelpers listManager 2 [⟨0, 0⟩] ⟨4, 4⟩ 0).2.1 = [] ∧
    (updateObject listHelpers listManager 2 [⟨0, 0⟩] ⟨4, 4⟩ 0).2.2 = listManager :=
  ⟨rfl, (updateObject_untracked_changes_nothing listHelpers listManager 2 [⟨0, 0⟩] ⟨4, 4⟩ 0
      rfl).1,
    (updateObject_untracked_changes_nothing listHelpers listManager 2 [⟨0, 0⟩] ⟨4, 4⟩ 0
      rfl).2.1,
    (updateObject_untracked_changes_nothing listHelpers listManager 2 [⟨0, 0⟩] ⟨4, 4⟩ 0
      rfl).2.2.1⟩

/-! ### RecastMeshObject -/

theorem any_zipWith_ne_iff {T : Type} [DecidableEq T] (cs rs : List T)
    (hlen : cs.length = rs.length) :
    (List.zipWith (fun c r => decide (c ≠ r)) cs rs).any id = true ↔
      ∃ i, i < cs.length ∧ cs[i]? ≠ rs[i]? := by
  induction cs generalizing rs with
  | nil => simp
  | cons c cs ih =>
    cases rs with
    | nil => simp at hlen
    | cons r rs =>
      have hlen1 : cs.length = rs.length := by simpa using hlen
      simp only [List.zipWith_cons_cons, List.any_cons, id, Bool.or_eq_true, decide_eq_true_eq,
        ih rs hlen1, List.length_cons]
      constructor
      · rintro (h | ⟨i, hi, hne⟩)
        · exact ⟨0, Nat.succ_pos _, by simpa using h⟩
        · exact ⟨i + 1, Nat.succ_lt_succ hi, by simpa using hne⟩
      · rintro ⟨i, hi, hne⟩
        cases i with
        | zero => exact Or.inl (by simpa using hne)
        | succ i => exact Or.inr ⟨i, Nat.lt_of_succ_lt_succ hi, by simpa using hne⟩

theorem any_zipWith_ne_self {T : Type} [DecidableEq T] (cs : List T) :
    (List.zipWith (fun c r => decide (c ≠ r)) cs cs).any id = false := by
  induction cs with
  | nil => rfl
  | cons c cs ih => simp [ih]

/-- C9: update(transform) returns true exactly when the transform differs from the one the
object recorded last or, for a compound shape, the current transform of some child differs
from the one recorded for it; the call records the current values, so that the same update
repeated at once returns false. For a box the same transform gives false and another one
true; for a compound shape a changed child transform gives true once, then false; so the
cases of the test suite. (update fails loudly when the child count of a compound shape does
not match the recorded children, which is excluded here.) -/
theorem update_true_iff_transform_changed {T : Type} [DecidableEq T] :
    (∀ (o : RecastMeshObject T) (shape : CollisionShape T) (transform : T),
      (∀ cs, shape = .compound cs → cs.length = o.mChildren.length) →
      ∃ b o1, o.update shape transform = some (b, o1) ∧
        (b = true ↔ (transform ≠ o.mTransform ∨
          ∃ cs, shape = .compound cs ∧ ∃ i, i < cs.length ∧ cs[i]? ≠ o.mChildren[i]?)) ∧
        o1.mTransform = transform ∧
        (∀ cs, shape = .compound cs → o1.mChildren = cs) ∧
        o1.update shape transform = some (false, o1)) ∧
    (∀ t0 ident : T, t0 ≠ ident →
      ((RecastMeshObject.create .simple t0).update .simple t0).map Prod.fst = some false ∧
      ((RecastMeshObject.create .simple t0).update .simple ident).map Prod.fst = some true ∧
      ((RecastMeshObject.create (.compound [t0]) t0).update (.compound [t0]) t0).map Prod.fst
        = some false ∧
      ((RecastMeshObject.create (.compound [t0]) t0).update
        ((CollisionShape.compound [t0]).updateChildTransform 0 ident) t0).map Prod.fst
        = some true ∧
      (((RecastMeshObject.create (.compound [t0]) t0).update
        ((CollisionShape.compound [t0]).updateChildTransform 0 ident) t0).bind
          (fun r => r.2.update ((CollisionShape.compound [t0]).updateChildTransform 0 ident)
            t0)).map Prod.fst = some false) := by
  constructor
  · intro o shape transform hlen
    cases shape with
    | simple =>
      refine ⟨decide (transform ≠ o.mTransform), { o with mTransform := transform }, rfl, ?_,
        rfl, ?_, ?_⟩
      · simp
      · intro cs hcs
        exact absurd hcs (by simp)
      · simp [RecastMeshObject.update]
    | compound cs =>
      have hl := hlen cs rfl
      refine ⟨decide (transform ≠ o.mTransform) ||
          (List.zipWith (fun c r => decide (c ≠ r)) cs o.mChildren).any id,
        { mTransform := transform, mChildren := cs }, ?_, ?_, rfl, ?_, ?_⟩
      · simp only [RecastMeshObject.update, hl, if_true]
      · rw [Bool.or_eq_true, any_zipWith_ne_iff cs o.mChildren hl]
        simp
      · intro cs1 hcs
        simp only [CollisionShape.compound.injEq] at hcs
        exact hcs
      · simp only [RecastMeshObject.update, if_true, any_zipWith_ne_self]
        simp
  · intro t0 ident hne
    have hne1 : ¬ ident = t0 := fun h => hne h.symm
    refine ⟨?_, ?_, ?_, ?_, ?_⟩ <;>
      simp [RecastMeshObject.update, RecastMeshObject.create,
        CollisionShape.updateChildTransform, hne, hne1]

/-- Witness of C9: an object for a compound shape with one child, recorded with transform 1
for the object and the child; the child transform is then 0. -/
theorem update_true_iff_transform_changed_witness :
    (∀ cs, CollisionShape.compound [0] = CollisionShape.compound cs →
      cs.length = (RecastMeshObject.create (CollisionShape.compound [1]) 1).mChildren.length) ∧
    (1 : Nat) ≠ 0 ∧
    (∃ b o1, (RecastMeshObject.create (CollisionShape.compound [1]) 1).update
        (CollisionShape.compound [0]) 1 = some (b, o1) ∧ b = true ∧
      o1.update (CollisionShape.compound [0]) 1 = some (false, o1)) ∧
    ((RecastMeshObject.create CollisionShape.simple 1).update CollisionShape.simple 0).map
      Prod.fst = some true :=
  have hlen : ∀ cs, CollisionShape.compound [0] = CollisionShape.compound cs →
      cs.length = (RecastMeshObject.create (CollisionShape.compound [1]) 1).mChildren.length :=
    fun cs hcs => by
      simp only [CollisionShape.compound.injEq] at hcs
      rw [← hcs]
      rfl
  ⟨hlen, by decide,
    (update_true_iff_transform_changed.1
      (RecastMeshObject.create (CollisionShape.compound [1]) 1) (CollisionShape.compound [0]) 1
      hlen).imp (fun b hb => hb.imp (fun o1 ho => ⟨ho.1,
        ho.2.1.2 (Or.inr ⟨[0], rfl, 0, by decide, by decide⟩), ho.2.2.2.2⟩)),
    (update_true_iff_transform_changed.2 1 0 (by decide)).2.1⟩

/-! ### A post for pending tiles -/

namespace AsyncNavMeshUpdater

variable {A C : Type} [DecidableEq A]

theorem insertPushed_snd_of_contains (m : A → Option (List TilePosition)) (a : A)
    (t : TilePosition) (h : pushedContains m a t = true) : (insertPushed m a t).2 = m := by
  funext a1
  rw [insertPushed_snd_apply]
  unfold pushedContains at h
  by_cases ha : a1 = a
  · subst ha
    cases hm : m a1 with
    | none =>
      rw [hm] at h
      exact absurd h (by simp)
    | some tiles =>
      rw [hm] at h
      have ht : t ∈ tiles := by simpa using h
      simp [ht]
  · simp [ha]

theorem postTile_of_isPushed (a : A) (c : C) (p : TilePosition) (s : AsyncNavMeshUpdater A C)
    (t : TilePosition) (h : s.isPushed a t = true) : postTile a c p s t = s := by
  have h1 : (insertPushed s.mPushed a t).1 = false := by
    rw [insertPushed_fst]
    unfold isPushed at h
    rw [h]
    rfl
  rw [postTile_eq, h1, insertPushed_snd_of_contains s.mPushed a t h]
  rfl

theorem foldl_postTile_of_isPushed (a : A) (c : C) (p : TilePosition)
    (ts : List TilePosition) (s : AsyncNavMeshUpdater A C)
    (h : ∀ t ∈ ts, s.isPushed a t = true) : ts.foldl (postTile a c p) s = s := by
  induction ts with
  | nil => rfl
  | cons t ts ih =>
    rw [List.foldl_cons, postTile_of_isPushed a c p s t (h t (List.mem_cons_self _ _))]
    exact ih (fun t1 h1 => h t1 (List.mem_cons_of_mem _ h1))

theorem post_of_isPushed (s : AsyncNavMeshUpdater A C) (a : A) (c : C) (p : TilePosition)
    (ts : List TilePosition) (h : ∀ t ∈ ts, s.isPushed a t = true) :
    s.post a c p ts = s.setPlayerTile p := by
  unfold post
  split
  · rfl
  · exact foldl_postTile_of_isPushed a c p ts (s.setPlayerTile p) h

end AsyncNavMeshUpdater

/-- C11: a queued job keeps the priority computed when it was enqueued. When a tile is
pending for an agent, a post for that agent naming the tile, with any player tile and any
cache item, leaves the job queue and the pending sets as they are and only stores the player
tile; should the post name further tiles, the queue only gains jobs for other tiles behind
the jobs it holds. So after a post that enqueued the job for (agent, tile) on a reachable
state and a later post naming the tile, the queue is the same, it holds a job for the pair,
and every job for the pair carries the cache item of the first post and makePriority of the
tile and the player tile of the first post. -/
theorem pending_post_keeps_queued_priority {A C : Type} [DecidableEq A] :
    (∀ (s : AsyncNavMeshUpdater A C) (a : A) (t : TilePosition), s.isPushed a t = true →
      ∀ (item : C) (p : TilePosition),
        (s.post a item p [t]).mJobs = s.mJobs ∧
        (s.post a item p [t]).mPushed = s.mPushed ∧
        (s.post a item p [t]).getPlayerTile = p ∧
        ∀ ts : List TilePosition,
          ∃ newJobs, (s.post a item p ts).mJobs = s.mJobs ++ newJobs ∧
            ∀ j ∈ newJobs, j.mChangedTile ≠ t) ∧
    (∀ (s0 : AsyncNavMeshUpdater A C), Reachable s0 →
      ∀ (a : A) (c0 c1 : C) (p0 p1 : TilePosition) (ts0 : List TilePosition)
        (t : TilePosition), t ∈ ts0 → s0.isPushed a t = false →
        ((s0.post a c0 p0 ts0).post a c1 p1 [t]).mJobs = (s0.post a c0 p0 ts0).mJobs ∧
        (∃ j ∈ ((s0.post a c0 p0 ts0).post a c1 p1 [t]).mJobs,
          j.mAgentHalfExtents = a ∧ j.mChangedTile = t) ∧
        (∀ j ∈ ((s0.post a c0 p0 ts0).post a c1 p1 [t]).mJobs,
          j.mAgentHalfExtents = a → j.mChangedTile = t →
          j.mNavMeshCacheItem = c0 ∧ j.mPriority = makePriority t p0) ∧
        ((s0.post a c0 p0 ts0).post a c1 p1 [t]).getPlayerTile = p1) := by
  constructor
  · intro s a t hp item p
    have hpost : s.post a item p [t] = s.setPlayerTile p :=
      AsyncNavMeshUpdater.post_of_isPushed s a item p [t]
        (fun t1 h1 => by rw [List.mem_singleton.1 h1]; exact hp)
    refine ⟨by rw [hpost]; rfl, by rw [hpost]; rfl, by rw [hpost]; rfl, ?_⟩
    intro ts
    obtain ⟨newJobs, h1, h2⟩ := AsyncNavMeshUpdater.post_mJobs s a item p ts
    refine ⟨newJobs, h1, ?_⟩
    intro j hj heq
    have hnot := (h2 j hj).2.2.2.2
    rw [heq, hp] at hnot
    exact absurd hnot (by simp)
  · intro s0 hr a c0 c1 p0 p1 ts0 t hmem hnp
    have hs0 := reachable_consistent hr
    have hs1 : (s0.post a c0 p0 ts0).Consistent :=
      AsyncNavMeshUpdater.post_consistent s0 a c0 p0 ts0 hs0
    have hp1 : (s0.post a c0 p0 ts0).isPushed a t = true := by
      rw [AsyncNavMeshUpdater.post_isPushed]
      simp [hmem]
    have hpost : (s0.post a c0 p0 ts0).post a c1 p1 [t]
        = (s0.post a c0 p0 ts0).setPlayerTile p1 :=
      AsyncNavMeshUpdater.post_of_isPushed _ a c1 p1 [t]
        (fun t1 h1 => by rw [List.mem_singleton.1 h1]; exact hp1)
    have hjobs : ((s0.post a c0 p0 ts0).post a c1 p1 [t]).mJobs
        = (s0.post a c0 p0 ts0).mJobs := by
      rw [hpost]
      rfl
    refine ⟨hjobs, ?_, ?_, by rw [hpost]; rfl⟩
    · rw [hjobs]
      have hc := hs1.1 a t
      rw [hp1] at hc
      have hpos : 0 < (s0.post a c0 p0 ts0).queuedCount a t := by
        rw [hc]
        simp
      obtain ⟨j, hj, hk⟩ := List.countP_pos_iff.1 hpos
      exact ⟨j, hj, by simpa using hk⟩
    · rw [hjobs]
      intro j hj hja hjt
      obtain ⟨newJobs, h1, h2⟩ := AsyncNavMeshUpdater.post_mJobs s0 a c0 p0 ts0
      rw [h1] at hj
      rcases List.mem_append.1 hj with hold | hnew
      · have hc := hs0.1 a t
        rw [hnp] at hc
        have hpos : 0 < s0.queuedCount a t :=
          List.countP_pos_iff.2 ⟨j, hold, by simp [hja, hjt]⟩
        simp at hc
        omega
      · obtain ⟨_, e2, _, e4, _⟩ := h2 j hnew
        rw [hjt] at e4
        exact ⟨e2, e4⟩

/-- Witness of C11: in the scenario tile (6,6) is pending for agent 1 with priority (2,12);
a later post naming it with player tile (6,6) leaves the queue as it is. -/
theorem pending_post_keeps_queued_priority_witness :
    scenarioUpdater.isPushed 1 ⟨6, 6⟩ = true ∧
    (scenarioUpdater.post 1 9 ⟨6, 6⟩ [⟨6, 6⟩]).mJobs = scenarioUpdater.mJobs ∧
    (scenarioUpdater.post 1 9 ⟨6, 6⟩ [⟨6, 6⟩]).getPlayerTile = ⟨6, 6⟩ ∧
    (scenarioUpdater.post 1 9 ⟨6, 6⟩ [⟨6, 6⟩]).mJobs.map
      (fun j => (j.mChangedTile, j.mNavMeshCacheItem, j.mPriority))
      = [(⟨0, 0⟩, 7, (10, 0)), (⟨6, 6⟩, 7, (2, 12))] :=
  ⟨by decide,
    ((pending_post_keeps_queued_priority (A := Nat) (C := Nat)).1 scenarioUpdater 1 ⟨6, 6⟩
      (by decide) 9 ⟨6, 6⟩).1,
    ((pending_post_keeps_queued_priority (A := Nat) (C := Nat)).1 scenarioUpdater 1 ⟨6, 6⟩
      (by decide) 9 ⟨6, 6⟩).2.2.1,
    by decide⟩

end DetourNavigator
